import Mathlib

/-!
Verification development for the `diffuse-cli` change-impact risk engine.

The TypeScript sources are shallowly embedded as executable Lean
definitions:

* `src/lib/constants.ts`   → `RiskFactorType`, `defaultRiskWeights`, `ScoredRisk`
* `src/lib/config.ts`      → `ResolvedConfig`, `validateConfig`
* `src/lib/buildUsageGraph.ts` → `GraphNode`, `UsageGraph`, `calculateBlastRadius`,
  `calculateGraphScore`
* `src/lib/analyzeBreakingChanges.ts` → `analyzeFile`, `compareFunctionSignature`,
  `compareInterfaces`, `isTypeNarrowed`, `findUntestedChanges`,
  `analyzeBreakingChanges`
* `src/lib/report.ts` (`getFileRisks`, the large-change fold-in) and the CLI
  driver's `totalRiskScore` composition → `getFileRisks`, `fileFinalScore`,
  `runPipeline`

JavaScript numbers are modeled as `ℚ` (all arithmetic performed by the
program on scores is exact decimal arithmetic), file paths and type texts as
`String`, and the external ts-morph front end as parameters: a parse
function `String → DeclMap` and a bidirectional assignability oracle
`String → String → Bool`.
-/

namespace Diffuse

/-- Model of JavaScript `String.prototype.trim`: drop whitespace from both
ends (used by `analyzeBreakingChanges` for the empty-content check). -/
def jsTrim (s : String) : String :=
  ⟨(((s.data.dropWhile Char.isWhitespace).reverse.dropWhile Char.isWhitespace).reverse)⟩

/-- Model of JavaScript `String.prototype.includes`: `needle` occurs as a
contiguous substring of `hay`. -/
def jsIncludes (hay needle : String) : Bool :=
  decide (needle.data <:+: hay.data)

/-- Kernel-computable embedding of a JavaScript integer count into the
rational score domain (`mkRat n 1 = (n : ℚ)`). -/
def qOfNat (n : Nat) : ℚ := mkRat n 1

theorem qOfNat_eq_cast (n : Nat) : qOfNat n = (n : ℚ) := by
  simp [qOfNat, Rat.mkRat_eq_div]

/-- The `RiskFactorType` enumeration from `src/lib/constants.ts`. -/
inductive RiskFactorType where
  | jsxEventChange
  | propsChanged
  | returnTypeChanged
  | typeNarrowing
  | typeWidening
  | missingTest
  | exportRemoved
  | exportAdded
  | dangerousTypeUse
  | publicAPI
  | importedInFiles
  | usedInMultipleTrees
  | dynamicImport       -- `PartialImport` in the source
  | fileRemoved
  | fileAdded
  | fileRenamed
  | largeChange
deriving DecidableEq

/-- All members of the enumeration, in source declaration order (the order
`Object.entries` uses in `validateConfig`). -/
def allRiskFactors : List RiskFactorType :=
  [.jsxEventChange, .propsChanged, .returnTypeChanged, .typeNarrowing,
   .typeWidening, .missingTest, .exportRemoved, .exportAdded,
   .dangerousTypeUse, .publicAPI, .importedInFiles, .usedInMultipleTrees,
   .dynamicImport, .fileRemoved, .fileAdded, .fileRenamed, .largeChange]

theorem mem_allRiskFactors (f : RiskFactorType) : f ∈ allRiskFactors := by
  cases f <;> simp [allRiskFactors]

/-- The default `riskWeights` table from `src/lib/constants.ts`
(`ImportedInFiles` is the multiplier `1.2 = 6/5`). -/
def defaultRiskWeights : RiskFactorType → ℚ
  | .jsxEventChange => 12
  | .propsChanged => 10
  | .returnTypeChanged => 8
  | .typeNarrowing => 6
  | .typeWidening => 2
  | .missingTest => 4
  | .exportRemoved => 10
  | .exportAdded => 0
  | .dangerousTypeUse => 4
  | .publicAPI => 5
  | .importedInFiles => mkRat 6 5
  | .usedInMultipleTrees => 5
  | .dynamicImport => 0
  | .fileRemoved => 10
  | .fileAdded => 2
  | .fileRenamed => 5
  | .largeChange => 7

/-- `ScoredRisk` from `src/lib/constants.ts`. The `explanation` string is
purely presentational and never inspected by the engine, so it is omitted
from the embedding. -/
structure ScoredRisk where
  subject : String
  factor : RiskFactorType
  points : ℚ
deriving DecidableEq

/-- The `thresholds` block of `ResolvedConfig` (`src/lib/config.ts`). -/
structure Thresholds where
  highRisk : ℚ
  mediumRisk : ℚ
  veryHighRisk : ℚ
  largeChangePercentage : ℚ
deriving DecidableEq

/-- The `analysis` block of `ResolvedConfig`. `maxFilesInGraph` is optional
(`undefined` is `none`). -/
structure AnalysisSettings where
  includeTestCoverage : Bool
  includeUsageGraph : Bool
  maxFilesInGraph : Option ℚ
deriving DecidableEq

/-- The `exclusions` block of `ResolvedConfig`. -/
structure Exclusions where
  files : List String
  directories : List String
  testPatterns : List String
deriving DecidableEq

/-- `ResolvedConfig` from `src/lib/config.ts`. The `reporting` block holds
only presentational toggles and suggestion strings never read by the risk
engine, so it is not carried. -/
structure ResolvedConfig where
  riskWeights : RiskFactorType → ℚ
  thresholds : Thresholds
  exclusions : Exclusions
  analysis : AnalysisSettings

/-- The `DEFAULT_CONFIG` value from `src/lib/config.ts`. -/
def defaultConfig : ResolvedConfig where
  riskWeights := defaultRiskWeights
  thresholds := { highRisk := 60, mediumRisk := 40, veryHighRisk := 80,
                  largeChangePercentage := 20 }
  exclusions := { files := [], directories := ["node_modules", "dist", "build", ".git"],
                  testPatterns := [] }
  analysis := { includeTestCoverage := true, includeUsageGraph := true,
                maxFilesInGraph := none }

/-- `validateConfig` from `src/lib/config.ts`, as a Boolean: `true` means no
exception is thrown (the sequential `throw` statements become a conjunction,
in source order).  The `typeof weight !== 'number'` disjunct is vacuous in
the embedding since weights are numbers by construction. -/
def validateConfig (c : ResolvedConfig) : Bool :=
  !(decide (c.thresholds.mediumRisk ≥ c.thresholds.highRisk)) &&
  !(decide (c.thresholds.highRisk ≥ c.thresholds.veryHighRisk)) &&
  !(decide (c.thresholds.largeChangePercentage ≤ 0) ||
    decide (c.thresholds.largeChangePercentage > 100)) &&
  (allRiskFactors.all fun f => !(decide (c.riskWeights f < 0))) &&
  (match c.analysis.maxFilesInGraph with
   | none => true
   | some m => !(decide (m ≤ 0)))

/-- A node of the usage graph (`GraphType` in `src/lib/buildUsageGraph.ts`).
The source field `isPartial` is called `incomplete` here (naming only). -/
structure GraphNode where
  exports : List String
  imports : List (String × List String)
  importedBy : List String
  subsystem : List String
  incomplete : Bool
deriving DecidableEq

/-- `UsageGraph = Record<string, GraphType>`, embedded as an association
list keyed by canonical file path; lookups find the first matching key. -/
def UsageGraph := List (String × GraphNode)

/-- First-match association-list lookup, the embedding of `graph[path]`. -/
def lookupNode : UsageGraph → String → Option GraphNode
  | [], _ => none
  | (k, n) :: rest, x => if k = x then some n else lookupNode rest x

/-- The embedding of `graph[current]?.importedBy ?? []`. -/
def importedByOf (g : UsageGraph) (p : String) : List String :=
  match lookupNode g p with
  | some n => n.importedBy
  | none => []

/-- Key set of the graph, used only for the termination measure of the
breadth-first traversal. -/
def graphKeys (g : UsageGraph) : List String := g.map Prod.fst

theorem lookupNode_none_of_not_mem_keys {x : String} :
    ∀ {g : UsageGraph}, x ∉ graphKeys g → lookupNode g x = none := by
  intro g
  induction g with
  | nil => intro _; rfl
  | cons hd tl ih =>
    intro h
    obtain ⟨k, n⟩ := hd
    have hxk : ¬ (k = x) := by
      intro hkx
      exact h (by simp [graphKeys, hkx])
    have h2 : x ∉ graphKeys tl := by
      intro hx
      apply h
      simp [graphKeys] at hx ⊢
      right
      exact hx
    simp only [lookupNode, if_neg hxk]
    exact ih h2

/-- The `while` loop of `calculateBlastRadius` in `src/lib/buildUsageGraph.ts`:
processes the queue, counting the direct dependents of each node the first
time it is expanded, and returns both the accumulated count and the final
visited list (newly visited nodes are consed onto `v`). -/
def bfsRun (g : UsageGraph) : List String → List String → Nat × List String
  | [], v => (0, v)
  | c :: q, v =>
    if c ∈ v then bfsRun g q v
    else
      let deps := importedByOf g c
      let r := bfsRun g (q ++ deps) (c :: v)
      (deps.length + r.1, r.2)
termination_by q v => (((graphKeys g).toFinset \ v.toFinset).card, q.length)
decreasing_by
  · exact Prod.Lex.right _ (Nat.lt_succ_self _)
  · simp only [List.toFinset_cons, List.length_append, List.length_cons]
    by_cases hk : c ∈ graphKeys g
    · apply Prod.Lex.left
      have hmem : c ∈ (graphKeys g).toFinset \ v.toFinset := by
        simp only [Finset.mem_sdiff, List.mem_toFinset]
        exact ⟨hk, by assumption⟩
      have heq : (graphKeys g).toFinset \ insert c v.toFinset
          = ((graphKeys g).toFinset \ v.toFinset).erase c := by
        ext x
        simp only [Finset.mem_sdiff, Finset.mem_insert, Finset.mem_erase, not_or]
        tauto
      rw [heq]
      exact Finset.card_erase_lt_of_mem hmem
    · have hdeps : importedByOf g c = [] := by
        simp [importedByOf, lookupNode_none_of_not_mem_keys hk]
      have heq : (graphKeys g).toFinset \ insert c v.toFinset
          = (graphKeys g).toFinset \ v.toFinset := by
        ext x
        simp only [Finset.mem_sdiff, Finset.mem_insert, not_or, List.mem_toFinset]
        constructor
        · rintro ⟨hx, _, hv⟩; exact ⟨hx, hv⟩
        · rintro ⟨hx, hv⟩
          exact ⟨hx, fun hxc => hk (hxc ▸ hx), hv⟩
      rw [heq, hdeps]
      exact Prod.Lex.right _ (by simp)

/-- `calculateBlastRadius(graph, filePath)` from `src/lib/buildUsageGraph.ts`. -/
def calculateBlastRadius (g : UsageGraph) (filePath : String) : Nat :=
  (bfsRun g [filePath] []).1

theorem bfsRun_nil (g : UsageGraph) (v : List String) : bfsRun g [] v = (0, v) := by
  simp [bfsRun]

theorem bfsRun_cons_mem (g : UsageGraph) {c : String} {v : List String} (q : List String)
    (h : c ∈ v) : bfsRun g (c :: q) v = bfsRun g q v := by
  rw [bfsRun]
  simp [h]

theorem bfsRun_cons_not_mem (g : UsageGraph) {c : String} {v : List String} (q : List String)
    (h : c ∉ v) :
    bfsRun g (c :: q) v =
      ((importedByOf g c).length + (bfsRun g (q ++ importedByOf g c) (c :: v)).1,
       (bfsRun g (q ++ importedByOf g c) (c :: v)).2) := by
  rw [bfsRun]
  simp [h]

theorem visited_subset_bfsRun (g : UsageGraph) :
    ∀ (q v : List String), ∀ x ∈ v, x ∈ (bfsRun g q v).2 := by
  intro q v
  induction q, v using bfsRun.induct g with
  | case1 v => simp [bfsRun_nil]
  | case2 c q v hc ih =>
    rw [bfsRun_cons_mem g q hc]
    exact ih
  | case3 c q v hc deps ih =>
    rw [bfsRun_cons_not_mem g q hc]
    intro x hx
    exact ih x (List.mem_cons_of_mem _ hx)

theorem queue_subset_bfsRun (g : UsageGraph) :
    ∀ (q v : List String), ∀ x ∈ q, x ∈ (bfsRun g q v).2 := by
  intro q v
  induction q, v using bfsRun.induct g with
  | case1 v => simp
  | case2 c q v hc ih =>
    rw [bfsRun_cons_mem g q hc]
    intro x hx
    rcases List.mem_cons.mp hx with rfl | h
    · exact visited_subset_bfsRun g q v x hc
    · exact ih x h
  | case3 c q v hc deps ih =>
    rw [bfsRun_cons_not_mem g q hc]
    intro x hx
    rcases List.mem_cons.mp hx with rfl | h
    · exact visited_subset_bfsRun g _ _ x (List.mem_cons_self x v)
    · exact ih x (List.mem_append_left _ h)

theorem closure_bfsRun (g : UsageGraph) :
    ∀ (q v : List String), ∀ x ∈ (bfsRun g q v).2, x ∉ v →
      ∀ y ∈ importedByOf g x, y ∈ (bfsRun g q v).2 := by
  intro q v
  induction q, v using bfsRun.induct g with
  | case1 v =>
    intro x hx hxv
    rw [bfsRun_nil] at hx
    exact absurd hx hxv
  | case2 c q v hc ih =>
    rw [bfsRun_cons_mem g q hc]
    exact ih
  | case3 c q v hc deps ih =>
    rw [bfsRun_cons_not_mem g q hc]
    intro x hx hxv y hy
    by_cases hxc : x = c
    · subst hxc
      exact queue_subset_bfsRun g _ _ y (List.mem_append_right _ hy)
    · exact ih x hx (by simp [hxc, hxv]) y hy

/-- Reachability along `importedBy` edges: the transitive closure the BFS of
`calculateBlastRadius` explores. -/
inductive Reach (g : UsageGraph) (s : String) : String → Prop where
  | refl : Reach g s s
  | step {x y : String} : Reach g s x → y ∈ importedByOf g x → Reach g s y

theorem bfsRun_sound (g : UsageGraph) (f : String) :
    ∀ (q v : List String), (∀ s ∈ q, Reach g f s) → (∀ s ∈ v, Reach g f s) →
      ∀ x ∈ (bfsRun g q v).2, Reach g f x := by
  intro q v
  induction q, v using bfsRun.induct g with
  | case1 v =>
    intro _ hv x hx
    rw [bfsRun_nil] at hx
    exact hv x hx
  | case2 c q v hc ih =>
    intro hq hv
    rw [bfsRun_cons_mem g q hc]
    exact ih (fun s hs => hq s (List.mem_cons_of_mem _ hs)) hv
  | case3 c q v hc deps ih =>
    intro hq hv
    rw [bfsRun_cons_not_mem g q hc]
    have hcr : Reach g f c := hq c (List.mem_cons_self c q)
    apply ih
    · intro s hs
      rcases List.mem_append.mp hs with h | h
      · exact hq s (List.mem_cons_of_mem _ h)
      · exact Reach.step hcr h
    · intro s hs
      rcases List.mem_cons.mp hs with h | h
      · exact h ▸ hcr
      · exact hv s h

theorem bfsRun_complete (g : UsageGraph) (f x : String) (h : Reach g f x) :
    x ∈ (bfsRun g [f] []).2 := by
  induction h with
  | refl => exact queue_subset_bfsRun g [f] [] f (List.mem_cons_self f [])
  | step hr hy ih =>
    exact closure_bfsRun g [f] [] _ ih (List.not_mem_nil _) _ hy

theorem nodup_bfsRun (g : UsageGraph) :
    ∀ (q v : List String), v.Nodup → (bfsRun g q v).2.Nodup := by
  intro q v
  induction q, v using bfsRun.induct g with
  | case1 v =>
    intro hv
    rw [bfsRun_nil]
    exact hv
  | case2 c q v hc ih =>
    intro hv
    rw [bfsRun_cons_mem g q hc]
    exact ih hv
  | case3 c q v hc deps ih =>
    intro hv
    rw [bfsRun_cons_not_mem g q hc]
    exact ih (List.nodup_cons.mpr ⟨hc, hv⟩)

theorem count_bfsRun (g : UsageGraph) :
    ∀ (q v : List String), v.Nodup →
      (bfsRun g q v).1 =
        ∑ x ∈ ((bfsRun g q v).2.toFinset \ v.toFinset), (importedByOf g x).length := by
  intro q v
  induction q, v using bfsRun.induct g with
  | case1 v =>
    intro hv
    rw [bfsRun_nil]
    simp
  | case2 c q v hc ih =>
    intro hv
    rw [bfsRun_cons_mem g q hc]
    exact ih hv
  | case3 c q v hc deps ih =>
    intro hv
    rw [bfsRun_cons_not_mem g q hc]
    have hnd : (c :: v).Nodup := List.nodup_cons.mpr ⟨hc, hv⟩
    have hcr : c ∈ (bfsRun g (q ++ importedByOf g c) (c :: v)).2 :=
      visited_subset_bfsRun g _ _ c (List.mem_cons_self c v)
    have hsplit :
        (bfsRun g (q ++ importedByOf g c) (c :: v)).2.toFinset \ v.toFinset
          = insert c ((bfsRun g (q ++ importedByOf g c) (c :: v)).2.toFinset
              \ (c :: v).toFinset) := by
      ext x
      simp only [Finset.mem_sdiff, Finset.mem_insert, List.mem_toFinset,
        List.toFinset_cons, Finset.mem_insert]
      constructor
      · rintro ⟨hx, hxv⟩
        by_cases hxc : x = c
        · exact Or.inl hxc
        · exact Or.inr ⟨hx, fun h => h.elim hxc hxv⟩
      · rintro (rfl | ⟨hx, hne⟩)
        · exact ⟨hcr, hc⟩
        · exact ⟨hx, fun hxv => hne (Or.inr hxv)⟩
    have hnotin : c ∉ (bfsRun g (q ++ importedByOf g c) (c :: v)).2.toFinset
        \ (c :: v).toFinset := by
      simp [List.toFinset_cons]
    rw [hsplit, Finset.sum_insert hnotin, ih hnd]

theorem reach_mono {g g' : UsageGraph}
    (hdep : ∀ x, ∀ y ∈ importedByOf g x, y ∈ importedByOf g' x)
    {f x : String} (h : Reach g f x) : Reach g' f x := by
  induction h with
  | refl => exact Reach.refl
  | step hr hy ih => exact Reach.step ih (hdep _ _ hy)

theorem mem_bfs_visited_iff_reach (g : UsageGraph) (f x : String) :
    x ∈ (bfsRun g [f] []).2 ↔ Reach g f x := by
  constructor
  · intro hx
    exact bfsRun_sound g f [f] []
      (fun s hs => by rcases List.mem_cons.mp hs with rfl | h; exact Reach.refl; cases h)
      (fun s hs => absurd hs (List.not_mem_nil s)) x hx
  · exact bfsRun_complete g f x

/-- Closed form: the blast radius is the total number of direct dependents
summed over every node reachable from `f` (including `f` itself) — an
edge-weighted impact count, not a distinct-file count. -/
theorem calculateBlastRadius_eq_sum (g : UsageGraph) (f : String) :
    calculateBlastRadius g f =
      ∑ x ∈ (bfsRun g [f] []).2.toFinset, (importedByOf g x).length := by
  have := count_bfsRun g [f] [] List.nodup_nil
  simpa [calculateBlastRadius] using this

theorem blastRadius_mono_of_pointwise {g g' : UsageGraph}
    (hsub : ∀ x, ∀ y ∈ importedByOf g x, y ∈ importedByOf g' x)
    (hlen : ∀ x, (importedByOf g x).length ≤ (importedByOf g' x).length)
    (f : String) : calculateBlastRadius g f ≤ calculateBlastRadius g' f := by
  rw [calculateBlastRadius_eq_sum, calculateBlastRadius_eq_sum]
  have hsubset : (bfsRun g [f] []).2.toFinset ⊆ (bfsRun g' [f] []).2.toFinset := by
    intro x hx
    rw [List.mem_toFinset] at hx ⊢
    rw [mem_bfs_visited_iff_reach] at hx ⊢
    exact reach_mono hsub hx
  calc ∑ x ∈ (bfsRun g [f] []).2.toFinset, (importedByOf g x).length
      ≤ ∑ x ∈ (bfsRun g [f] []).2.toFinset, (importedByOf g' x).length :=
        Finset.sum_le_sum (fun x _ => hlen x)
    _ ≤ ∑ x ∈ (bfsRun g' [f] []).2.toFinset, (importedByOf g' x).length :=
        Finset.sum_le_sum_of_subset hsubset

/-- The fresh node `buildUsageGraph` creates when an imported target is not
yet in the graph (line `graph[importedPath] = { exports: [], ... }`). -/
def emptyGraphNode : GraphNode :=
  { exports := [], imports := [], importedBy := [], subsystem := [],
    incomplete := false }

/-- Adding one importer edge, as `buildUsageGraph` does: the node for `m` is
created if absent, and the importer path `p` is appended to its `importedBy`
list (the first entry with key `m` is the one updated, matching the
first-match lookup). -/
def addImporter : UsageGraph → String → String → UsageGraph
  | [], m, p => [(m, { emptyGraphNode with importedBy := [p] })]
  | (k, n) :: rest, m, p =>
    if k = m then (k, { n with importedBy := n.importedBy ++ [p] }) :: rest
    else (k, n) :: addImporter rest m p

theorem importedByOf_cons (k : String) (n : GraphNode) (tl : UsageGraph) (x : String) :
    importedByOf ((k, n) :: tl) x = if k = x then n.importedBy else importedByOf tl x := by
  by_cases h : k = x <;> simp [importedByOf, lookupNode, h]

theorem importedByOf_addImporter (g : UsageGraph) (m p x : String) :
    importedByOf (addImporter g m p) x =
      if x = m then importedByOf g m ++ [p] else importedByOf g x := by
  induction g with
  | nil =>
    by_cases hxm : x = m
    · subst hxm
      simp [addImporter, importedByOf_cons, importedByOf, lookupNode]
    · have hmx : ¬ m = x := fun h => hxm h.symm
      simp [addImporter, importedByOf_cons, importedByOf, lookupNode, hmx, hxm]
  | cons hd tl ih =>
    obtain ⟨k, n⟩ := hd
    by_cases hkm : k = m
    · subst hkm
      simp only [addImporter, if_pos rfl]
      by_cases hxk : x = k
      · subst hxk
        simp [importedByOf_cons]
      · have hkx : ¬ k = x := fun h => hxk h.symm
        simp [importedByOf_cons, hxk, hkx]
    · simp only [addImporter, if_neg hkm]
      by_cases hxk : x = k
      · subst hxk
        have hxm : ¬ x = m := hkm
        simp [importedByOf_cons, hxm]
      · have hkx : ¬ k = x := fun h => hxk h.symm
        simp [importedByOf_cons, hkm, hkx, ih]

/-- C4: adding any single importer edge (appending an importer path `p` to
node `m`'s `importedBy` list, creating the node if needed) can only keep or
increase the blast radius of every node `n`. -/
theorem blastRadius_mono_addImporter (g : UsageGraph) (m p n : String) :
    calculateBlastRadius g n ≤ calculateBlastRadius (addImporter g m p) n := by
  apply blastRadius_mono_of_pointwise
  · intro x y hy
    rw [importedByOf_addImporter]
    by_cases hxm : x = m
    · subst hxm
      simp only [if_pos rfl]
      exact List.mem_append.mpr (Or.inl hy)
    · simpa [hxm] using hy
  · intro x
    rw [importedByOf_addImporter]
    by_cases hxm : x = m
    · subst hxm
      simp
    · simp [hxm]

/-- An exported declaration as delivered by the front end
(`getExportedDeclarations`, first element per name). `func` carries the
return-type text and the ordered parameter-type texts; `iface` carries the
ordered `(name, hasQuestionToken)` properties; `other` is every kind the
detector does not diff. -/
inductive Decl where
  | func (ret : String) (params : List String)
  | iface (props : List (String × Bool))
  | other
deriving DecidableEq

/-- The exported-declaration map of one parsed source text, keyed by export
name (first declaration per name, as in `exports.get(name)?.[0]`). -/
def DeclMap := List (String × Decl)

/-- First-match lookup in a declaration map. -/
def lookupDecl : DeclMap → String → Option Decl
  | [], _ => none
  | (k, d) :: rest, x => if k = x then some d else lookupDecl rest x

/-- JavaScript object construction semantics (`Object.fromEntries`): setting
an existing key overwrites its value in place, a new key is appended.
`for...in` then enumerates keys in first-insertion order. -/
def objInsert (l : List (String × Bool)) (k : String) (v : Bool) : List (String × Bool) :=
  match l with
  | [] => [(k, v)]
  | (k', v') :: rest => if k' = k then (k', v) :: rest else (k', v') :: objInsert rest k v

/-- Build the property object of an interface, as
`Object.fromEntries(iface.getProperties().map(p => [p.getName(), p]))` does. -/
def objEntries (props : List (String × Bool)) : List (String × Bool) :=
  props.foldl (fun acc kv => objInsert acc kv.1 kv.2) []

/-- First-match lookup in a property object (`props[name]`). -/
def lookupProp : List (String × Bool) → String → Option Bool
  | [], _ => none
  | (k, v) :: rest, x => if k = x then some v else lookupProp rest x

/-- Structured form of the strings `compareFunctionSignature` pushes. The
parameter index in `paramNarrowed` is the 0-based loop index (the source
message prints `i + 1`). -/
inductive SigIssue where
  | returnNarrowed
  | paramsRemoved (n : Nat)
  | paramsAdded (n : Nat)
  | paramNarrowed (i : Nat)
deriving DecidableEq

/-- Structured form of the strings `compareInterfaces` pushes. -/
inductive IfaceIssue where
  | propRemoved (name : String)
  | nowRequired (name : String)
  | propAdded (name : String)
deriving DecidableEq

/-- `isTypeNarrowed` from `src/lib/analyzeBreakingChanges.ts`: new is
assignable to old but old is not assignable to new. `asg a b` is the
external `checker.isTypeAssignableTo(a, b)` oracle. -/
def isTypeNarrowed (asg : String → String → Bool) (oldType newType : String) : Bool :=
  asg newType oldType && !(asg oldType newType)

/-- `compareFunctionSignature` from `src/lib/analyzeBreakingChanges.ts`.
Function declarations always have a return type and a parameter list, so the
`"getReturnType" in fn` / `"getParameters" in fn` guards (and the dead
`!oldRet && !newRet` early returns) are vacuous and not modeled. -/
def compareFunctionSignature (asg : String → String → Bool)
    (oldRet : String) (oldParams : List String)
    (newRet : String) (newParams : List String) : List SigIssue :=
  let retIssues := if isTypeNarrowed asg oldRet newRet then [SigIssue.returnNarrowed] else []
  if newParams.length < oldParams.length then
    retIssues ++ [SigIssue.paramsRemoved (oldParams.length - newParams.length)]
  else if newParams.length > oldParams.length then
    retIssues ++ [SigIssue.paramsAdded (newParams.length - oldParams.length)]
  else
    retIssues ++ ((oldParams.zip newParams).enum.filterMap fun ip =>
      if isTypeNarrowed asg ip.2.1 ip.2.2 then some (SigIssue.paramNarrowed ip.1) else none)

/-- `compareInterfaces` from `src/lib/analyzeBreakingChanges.ts`: the first
`for...in` walks the old property object (removed properties and
optional-to-required transitions), the second walks the new property object
(added properties). -/
def compareInterfaces (oldProps newProps : List (String × Bool)) : List IfaceIssue :=
  let oldObj := objEntries oldProps
  let newObj := objEntries newProps
  ((oldObj.map Prod.fst).filterMap fun name =>
    match lookupProp newObj name with
    | none => some (IfaceIssue.propRemoved name)
    | some isOptional =>
      match lookupProp oldObj name with
      | some wasOptional =>
        if wasOptional && !isOptional then some (IfaceIssue.nowRequired name) else none
      | none => none)
  ++ ((newObj.map Prod.fst).filterMap fun name =>
    if (lookupProp oldObj name).isNone then some (IfaceIssue.propAdded name) else none)

/-- Structured form of the per-file issue strings `analyzeFile` pushes. -/
inductive AnalysisIssue where
  | exportAdded (name : String)
  | exportRemoved (name : String)
  | functionIssue (name : String) (i : SigIssue)
  | interfaceIssue (name : String) (i : IfaceIssue)
deriving DecidableEq

/-- Result record of `analyzeFile`. -/
structure FileAnalysis where
  issues : List AnalysisIssue
  changedExports : List String
  scores : List ScoredRisk
  fileScore : ℚ
deriving DecidableEq

/-- The JavaScript `Set` iteration order: all elements in first-occurrence
order (`new Set([...])`). -/
def dedupFirstAux (seen : List String) : List String → List String
  | [] => []
  | x :: xs => if x ∈ seen then dedupFirstAux seen xs else x :: dedupFirstAux (x :: seen) xs

def dedupFirst (l : List String) : List String := dedupFirstAux [] l

/-- The per-name body of `analyzeFile`'s `for (const name of allNames)` loop. -/
def analyzeFileStep (cfg : ResolvedConfig) (asg : String → String → Bool)
    (oldMap newMap : DeclMap) (acc : FileAnalysis) (name : String) : FileAnalysis :=
  match lookupDecl oldMap name, lookupDecl newMap name with
  | none, some _ =>
    { issues := acc.issues ++ [AnalysisIssue.exportAdded name]
      changedExports := acc.changedExports ++ [name]
      scores := acc.scores ++
        [⟨name, RiskFactorType.exportAdded, cfg.riskWeights RiskFactorType.exportAdded⟩]
      fileScore := acc.fileScore + cfg.riskWeights RiskFactorType.exportAdded }
  | some _, none =>
    { issues := acc.issues ++ [AnalysisIssue.exportRemoved name]
      changedExports := acc.changedExports ++ [name]
      scores := acc.scores ++
        [⟨name, RiskFactorType.exportRemoved, cfg.riskWeights RiskFactorType.exportRemoved⟩]
      fileScore := acc.fileScore + cfg.riskWeights RiskFactorType.exportRemoved }
  | none, none => acc
  | some oldDecl, some newDecl =>
    match oldDecl, newDecl with
    | Decl.func oldRet oldParams, Decl.func newRet newParams =>
      let changes := compareFunctionSignature asg oldRet oldParams newRet newParams
      if changes.length > 0 then
        { issues := acc.issues ++ changes.map (AnalysisIssue.functionIssue name)
          changedExports := acc.changedExports ++ [name]
          scores := acc.scores ++ changes.map (fun _ =>
            ⟨name, RiskFactorType.returnTypeChanged,
             cfg.riskWeights RiskFactorType.returnTypeChanged⟩)
          fileScore := acc.fileScore +
            qOfNat changes.length * cfg.riskWeights RiskFactorType.returnTypeChanged }
      else acc
    | Decl.iface oldProps, Decl.iface newProps =>
      let changes := compareInterfaces oldProps newProps
      if changes.length > 0 then
        { issues := acc.issues ++ changes.map (AnalysisIssue.interfaceIssue name)
          changedExports := acc.changedExports ++ [name]
          scores := acc.scores ++ changes.map (fun _ =>
            ⟨name, RiskFactorType.propsChanged,
             cfg.riskWeights RiskFactorType.propsChanged⟩)
          fileScore := acc.fileScore +
            qOfNat changes.length * cfg.riskWeights RiskFactorType.propsChanged }
      else acc
    | _, _ => acc

/-- `analyzeFile` from `src/lib/analyzeBreakingChanges.ts` (the live loop,
not the commented-out first version): iterate the union of old and new
export names in `Set` insertion order (old names first), dispatching on the
declaration kinds. -/
def analyzeFile (cfg : ResolvedConfig) (asg : String → String → Bool)
    (newMap oldMap : DeclMap) : FileAnalysis :=
  let allNames := dedupFirst ((oldMap.map Prod.fst) ++ (newMap.map Prod.fst))
  allNames.foldl (analyzeFileStep cfg asg oldMap newMap)
    { issues := [], changedExports := [], scores := [], fileScore := 0 }

/-- The `testFileText` corpus of `findUntestedChanges`
(`src/lib/analyzeBreakingChanges.ts`): the `"\n"`-join of all test files'
full text, or `""` when there are no test files. -/
def testFileTextOf (testTexts : List String) : String :=
  if testTexts.length > 0 then String.intercalate "\n" testTexts else ""

/-- `findUntestedChanges` from `src/lib/analyzeBreakingChanges.ts`: a
changed export is untested when the corpus does not `include` it. -/
def findUntestedChanges (changedExports : List String) (testTexts : List String) :
    List String :=
  changedExports.filter fun name => !(jsIncludes (testFileTextOf testTexts) name)

/-- Git change status (`ChangeStatus` in `getChangedFilesWithStatus.ts`):
Added, Deleted, Modified, Renamed, Untracked. -/
inductive ChangeStatus where
  | A | D | M | R | U
deriving DecidableEq

/-- `FileChange` from `src/lib/setup/getChangedFilesWithStatus.ts`. -/
structure FileChange where
  path : String
  status : ChangeStatus
  renamedFrom : Option String := none
deriving DecidableEq

/-- The `skippedFiles` buckets of `analyzeBreakingChanges`. -/
structure SkippedFiles where
  unsupported : List String
  failed : List String
  empty : List String
  tests : List String
deriving DecidableEq

/-- Structured form of the strings `analyzeBreakingChanges` pushes into its
top-level `issues` list. -/
inductive BCIssue where
  | fileRemoved
  | newFile
  | renamed (renamedFrom : String)
  | fileDiff (path : String) (issues : List AnalysisIssue)
  | untested (names : List String)
deriving DecidableEq

/-- Accumulator of `analyzeBreakingChanges`' `for` loop. `scores` is the
JavaScript object keyed by file path, as an insertion-ordered association
list. The per-entry `fileScore` field of the source is write-only (nothing
in the program ever reads it back), so the entry is just the risk list. -/
structure BCState where
  issues : List BCIssue
  scores : List (String × List ScoredRisk)
  totalScore : ℚ
  skipped : SkippedFiles
deriving DecidableEq

/-- Assignment `scores[path] = { scores: risks }`: overwrite in place or
append, JavaScript object semantics. -/
def objSetRisks (l : List (String × List ScoredRisk)) (path : String)
    (risks : List ScoredRisk) : List (String × List ScoredRisk) :=
  match l with
  | [] => [(path, risks)]
  | (k, v) :: rest =>
    if k = path then (k, risks) :: rest else (k, v) :: objSetRisks rest path risks

/-- First-match lookup in the scores object. -/
def lookupRisks : List (String × List ScoredRisk) → String → Option (List ScoredRisk)
  | [], _ => none
  | (k, v) :: rest, x => if k = x then some v else lookupRisks rest x

/-- `scores[path].scores.push(risk)` when the entry exists, otherwise
`scores[path] = { scores: [risk] }`. -/
def objAppendRisk (l : List (String × List ScoredRisk)) (path : String)
    (risk : ScoredRisk) : List (String × List ScoredRisk) :=
  match l with
  | [] => [(path, [risk])]
  | (k, v) :: rest =>
    if k = path then (k, v ++ [risk]) :: rest else (k, v) :: objAppendRisk rest path risk

/-- The external collaborators `analyzeBreakingChanges` consumes: the
content provider (`getOldCode` / `getNewCode`), the `includeTests` toggle,
the two `FileFilter`s (whose own sources live outside the analyzed tree, so
they stay abstract predicates), the front-end parse function, the
assignability oracle and the test-corpus texts. The `verbose` flag only
gates logging and is not modeled. -/
structure BCEnv where
  getOldCode : String → String
  getNewCode : String → String
  includeTests : Bool
  testFilterInclude : String → Bool
  sourceFilterInclude : String → Bool
  hasSupportedExtension : String → Bool
  parse : String → DeclMap
  asg : String → String → Bool
  testTexts : List String

/-- One iteration of the `for (const file of files)` loop of
`analyzeBreakingChanges` (`src/lib/analyzeBreakingChanges.ts`), in source
order: test-file skip, filter skips, content fetch with `"Skipped"`
sentinel, empty-content skip, then the Deleted short-circuit, the
Added/Untracked and Renamed pre-risks, the structural diff, and the
missing-test check. -/
def processFile (cfg : ResolvedConfig) (env : BCEnv) (st : BCState)
    (file : FileChange) : BCState :=
  if env.testFilterInclude file.path then
    { st with skipped := { st.skipped with tests := st.skipped.tests ++ [file.path] } }
  else if !(env.sourceFilterInclude file.path) then
    { st with skipped :=
        { st.skipped with unsupported := st.skipped.unsupported ++ [file.path] } }
  else if !(env.hasSupportedExtension file.path) then
    { st with skipped :=
        { st.skipped with unsupported := st.skipped.unsupported ++ [file.path] } }
  else
    let oldText := env.getOldCode file.path
    let newText := env.getNewCode file.path
    if oldText = "Skipped" ∨ newText = "Skipped" then
      { st with skipped := { st.skipped with failed := st.skipped.failed ++ [file.path] } }
    else if jsTrim oldText = "" ∨ jsTrim newText = "" then
      { st with skipped := { st.skipped with empty := st.skipped.empty ++ [file.path] } }
    else if file.status = ChangeStatus.D then
      { st with
          issues := st.issues ++ [BCIssue.fileRemoved]
          scores := objSetRisks st.scores file.path
            [⟨file.path, RiskFactorType.fileRemoved,
              cfg.riskWeights RiskFactorType.fileRemoved⟩]
          totalScore := st.totalScore + cfg.riskWeights RiskFactorType.fileRemoved }
    else
      let st :=
        if file.status = ChangeStatus.A ∨ file.status = ChangeStatus.U then
          { st with
              issues := st.issues ++ [BCIssue.newFile]
              scores := objSetRisks st.scores file.path
                [⟨file.path, RiskFactorType.fileAdded,
                  cfg.riskWeights RiskFactorType.fileAdded⟩]
              totalScore := st.totalScore + cfg.riskWeights RiskFactorType.fileAdded }
        else st
      let st :=
        match file.renamedFrom with
        | some src =>
          if file.status = ChangeStatus.R then
            { st with
                issues := st.issues ++ [BCIssue.renamed src]
                scores := objSetRisks st.scores file.path
                  [⟨file.path, RiskFactorType.fileRenamed,
                    cfg.riskWeights RiskFactorType.fileRenamed⟩]
                totalScore := st.totalScore + cfg.riskWeights RiskFactorType.fileRenamed }
          else st
        | none => st
      let fa := analyzeFile cfg env.asg (env.parse newText) (env.parse oldText)
      let st :=
        if fa.issues.length > 0 then
          { st with issues := st.issues ++ [BCIssue.fileDiff file.path fa.issues] }
        else st
      let st :=
        if fa.scores.length > 0 then
          { st with
              scores := objSetRisks st.scores file.path fa.scores
              totalScore := st.totalScore + fa.fileScore }
        else st
      if env.includeTests then
        let untested := findUntestedChanges
          (if fa.changedExports.length > 0 then fa.changedExports else ["(file)"])
          env.testTexts
        if untested.length > 0 then
          { st with
              issues := st.issues ++ [BCIssue.untested untested]
              scores := objAppendRisk st.scores file.path
                ⟨file.path, RiskFactorType.missingTest,
                 cfg.riskWeights RiskFactorType.missingTest⟩
              totalScore := st.totalScore + cfg.riskWeights RiskFactorType.missingTest }
        else st
      else st

/-- `analyzeBreakingChanges` from `src/lib/analyzeBreakingChanges.ts`. -/
def analyzeBreakingChanges (cfg : ResolvedConfig) (env : BCEnv)
    (files : List FileChange) : BCState :=
  files.foldl (processFile cfg env)
    { issues := [], scores := [], totalScore := 0,
      skipped := { unsupported := [], failed := [], empty := [], tests := [] } }

/-- One iteration of the `for (const file of changedFiles)` loop of
`calculateGraphScore` (`src/lib/buildUsageGraph.ts`). `path.resolve` is
modeled as the identity on already-canonical paths. Note that the
`UsedInMultipleTrees` risk is pushed with its weight but never added to the
running total, and the zero-point `PartialImport` risk is pushed before the
`dependents.length === 0` early exit. The weights come from the
`constants.ts` defaults (the function takes no config). -/
def graphScoreStep (g : UsageGraph) (acc : ℚ × List ScoredRisk) (file : String) :
    ℚ × List ScoredRisk :=
  let radius := calculateBlastRadius g file
  let dependents := importedByOf g file
  let isIncomplete := match lookupNode g file with
    | some n => n.incomplete
    | none => false
  let acc := if isIncomplete then
      (acc.1, acc.2 ++ [⟨file, RiskFactorType.dynamicImport, 0⟩])
    else acc
  if dependents.length = 0 then acc
  else
    let radiusScore := qOfNat radius * defaultRiskWeights RiskFactorType.importedInFiles
    let subsystemCount := match lookupNode g file with
      | some n => n.subsystem.length
      | none => 0
    let acc := if subsystemCount > 1 then
        (acc.1, acc.2 ++ [⟨file, RiskFactorType.usedInMultipleTrees,
          defaultRiskWeights RiskFactorType.usedInMultipleTrees⟩])
      else acc
    (acc.1 + radiusScore, acc.2 ++ [⟨file, RiskFactorType.importedInFiles, radiusScore⟩])

/-- `calculateGraphScore` from `src/lib/buildUsageGraph.ts`: returns
`(totalScore, graphScore)`. -/
def calculateGraphScore (g : UsageGraph) (changedFiles : List String) :
    ℚ × List ScoredRisk :=
  changedFiles.foldl (graphScoreStep g) (0, [])

/-- Per-file line statistics (`getLineStats`): `added`, `removed`,
`totalLines`. -/
structure LineStats where
  added : Nat
  removed : Nat
  totalLines : Nat
deriving DecidableEq

/-- The guarded percentage computation of `src/lib/report.ts`:
`stats.totalLines > 0 ? (totalChanged / stats.totalLines) * 100 : 0`. -/
def percentageChanged (stats : LineStats) : ℚ :=
  if stats.totalLines > 0 then
    (((stats.added : ℚ) + (stats.removed : ℚ)) / (stats.totalLines : ℚ)) * 100
  else 0

/-- The large-change test of `src/lib/report.ts`:
`percentageChanged > LARGE_CHANGE_PERCENTAGE_THRESHOLD` with the hardcoded
constant `20` (the resolved configuration is not consulted). -/
def largeChangeApplied (stats : LineStats) : Bool :=
  percentageChanged stats > 20

/-- `lineStats[file] || { added: 0, removed: 0, totalLines: 0 }`. -/
def statsFor (lineStats : List (String × LineStats)) (file : String) : LineStats :=
  match lineStats.lookup file with
  | some s => s
  | none => { added := 0, removed := 0, totalLines := 0 }

/-- The per-file `finalScore` of `generateTerminalReport`: the recorded
total plus the flat default `LargeChange` weight when the hardcoded
threshold is exceeded. -/
def fileFinalScore (total : ℚ) (stats : LineStats) : ℚ :=
  if largeChangeApplied stats then
    total + defaultRiskWeights RiskFactorType.largeChange
  else total

/-- The `fileRisksWithLarge` list shown per file by the report: the recorded
risks plus the derived `LargeChange` risk when the threshold is exceeded. -/
def presentedRisks (file : String) (risks : List ScoredRisk) (stats : LineStats) :
    List ScoredRisk :=
  if largeChangeApplied stats then
    risks ++ [⟨file, RiskFactorType.largeChange,
      defaultRiskWeights RiskFactorType.largeChange⟩]
  else risks

/-- One step of the bucketing loop of `getFileRisks` (`src/lib/report.ts`):
route one `(file, score)` pair into the per-file accumulator, creating the
bucket on first sight and otherwise adding the points and pushing the risk. -/
def addToFileRisks (acc : List (String × ℚ × List ScoredRisk))
    (entry : String × ScoredRisk) : List (String × ℚ × List ScoredRisk) :=
  match acc with
  | [] => [(entry.1, entry.2.points, [entry.2])]
  | (k, t, rs) :: rest =>
    if k = entry.1 then (k, t + entry.2.points, rs ++ [entry.2]) :: rest
    else (k, t, rs) :: addToFileRisks rest entry

/-- `getFileRisks` from `src/lib/report.ts`: flatten the breaking-change
scores object and the graph risks (keyed by `subject`) into `(file, score)`
pairs, then bucket them per file with running `total`s. -/
def getFileRisks (bcScores : List (String × List ScoredRisk))
    (graphRisks : List ScoredRisk) : List (String × ℚ × List ScoredRisk) :=
  let allScores :=
    (bcScores.flatMap fun fr => fr.2.map fun s => (fr.1, s))
    ++ graphRisks.map fun s => (s.subject, s)
  allScores.foldl addToFileRisks []

/-- The data record assembled by the CLI driver: breaking-change output,
graph score and `totalRiskScore = breakingChanges.totalScore +
graphScore.totalScore`, plus the line stats handed to the report. -/
structure RunData where
  breaking : BCState
  graphTotal : ℚ
  graphRisks : List ScoredRisk
  totalRiskScore : ℚ
  lineStats : List (String × LineStats)

/-- The CLI driver composition (`runCLI` in the entry point): run the
breaking-change analysis and the graph scoring, and add the two totals. -/
def runPipeline (cfg : ResolvedConfig) (env : BCEnv) (files : List FileChange)
    (g : UsageGraph) (changedFiles : List String)
    (lineStats : List (String × LineStats)) : RunData :=
  let breaking := analyzeBreakingChanges cfg env files
  let gs := calculateGraphScore g changedFiles
  { breaking := breaking
    graphTotal := gs.1
    graphRisks := gs.2
    totalRiskScore := breaking.totalScore + gs.1
    lineStats := lineStats }

/-- Sum over all files of the per-file score the report presents (recorded
points plus the derived LargeChange contribution where it applies). -/
def sumPresentedFinalScores (d : RunData) : ℚ :=
  (getFileRisks d.breaking.scores d.graphRisks).foldl
    (fun a e => a + fileFinalScore e.2.1 (statsFor d.lineStats e.1)) 0

/-- Sum of the points of a risk list. -/
def riskPointsSum (l : List ScoredRisk) : ℚ := (l.map ScoredRisk.points).sum

/-- The validity conditions exactly as the specification states them:
monotone thresholds, percentage in `(0, 100]`, non-negative weights. -/
def specValidConditions (c : ResolvedConfig) : Prop :=
  c.thresholds.mediumRisk < c.thresholds.highRisk ∧
  c.thresholds.highRisk < c.thresholds.veryHighRisk ∧
  0 < c.thresholds.largeChangePercentage ∧
  c.thresholds.largeChangePercentage ≤ 100 ∧
  ∀ f, 0 ≤ c.riskWeights f

/-- A resolved configuration satisfying every validity condition the spec
lists, but with `maxFilesInGraph = 0`. -/
def configMaxFilesZero : ResolvedConfig :=
  { defaultConfig with
      analysis := { defaultConfig.analysis with maxFilesInGraph := some 0 } }

/-- C7 counterexample: `configMaxFilesZero` meets every condition the claim
lists (monotone thresholds, percentage in range, non-negative weights), yet
`validateConfig` rejects it, because the source additionally requires
`maxFilesInGraph`, when defined, to be positive. -/
theorem validateConfig_claim_counterexample :
    validateConfig configMaxFilesZero = false ∧ specValidConditions configMaxFilesZero := by
  refine ⟨by decide, ?_, ?_, ?_, ?_, ?_⟩
  · norm_num [configMaxFilesZero, defaultConfig]
  · norm_num [configMaxFilesZero, defaultConfig]
  · norm_num [configMaxFilesZero, defaultConfig]
  · norm_num [configMaxFilesZero, defaultConfig]
  · intro f
    cases f <;> norm_num [configMaxFilesZero, defaultConfig, defaultRiskWeights]

/-- C7 (amended): `validateConfig` succeeds iff `mediumRisk < highRisk <
veryHighRisk`, `0 < largeChangePercentage ≤ 100`, every risk weight is
non-negative, AND `maxFilesInGraph`, when defined, is positive. -/
theorem validateConfig_succeeds_iff (c : ResolvedConfig) :
    validateConfig c = true ↔
      (specValidConditions c ∧ ∀ m, c.analysis.maxFilesInGraph = some m → 0 < m) := by
  have hall : (allRiskFactors.all fun f => !(decide (c.riskWeights f < 0))) = true
      ↔ ∀ f, 0 ≤ c.riskWeights f := by
    rw [List.all_eq_true]
    constructor
    · intro h f
      have := h f (mem_allRiskFactors f)
      simpa [not_lt] using this
    · intro h f _
      simp [not_lt.mpr (h f)]
  rcases hm : c.analysis.maxFilesInGraph with _ | m
  · simp [validateConfig, hm, hall, specValidConditions, not_lt, not_le, and_assoc]
  · simp [validateConfig, hm, hall, specValidConditions, not_lt, not_le, and_assoc]

/-- C9: when `totalLines = 0` the percentage guard short-circuits to `0`, so
the division is never evaluated and no `LargeChange` risk or points are
added even when `added + removed > 0`. -/
theorem no_largeChange_when_totalLines_zero (file : String) (risks : List ScoredRisk)
    (total : ℚ) (stats : LineStats) (h : stats.totalLines = 0) :
    percentageChanged stats = 0 ∧ largeChangeApplied stats = false ∧
    fileFinalScore total stats = total ∧ presentedRisks file risks stats = risks := by
  have hp : percentageChanged stats = 0 := by
    simp [percentageChanged, h]
  have hl : largeChangeApplied stats = false := by
    simp only [largeChangeApplied, hp]
    norm_num
  exact ⟨hp, hl, by simp [fileFinalScore, hl], by simp [presentedRisks, hl]⟩

/-- C9 witness: a file with 3 added and 4 removed lines but `totalLines = 0`
gets no LargeChange contribution. -/
theorem no_largeChange_when_totalLines_zero_witness :
    (LineStats.mk 3 4 0).totalLines = 0 ∧
    (percentageChanged ⟨3, 4, 0⟩ = 0 ∧ largeChangeApplied ⟨3, 4, 0⟩ = false ∧
     fileFinalScore 5 ⟨3, 4, 0⟩ = 5 ∧ presentedRisks "a.ts" [] ⟨3, 4, 0⟩ = []) :=
  ⟨rfl, no_largeChange_when_totalLines_zero "a.ts" [] 5 ⟨3, 4, 0⟩ rfl⟩

/-- A valid resolved configuration whose `largeChangePercentage` is 50. -/
def configLargeChange50 : ResolvedConfig :=
  { defaultConfig with
      thresholds := { defaultConfig.thresholds with largeChangePercentage := 50 } }

/-- C8 counterexample: with the valid configuration `configLargeChange50`
(threshold 50) and a file 30% changed, the report still appends the
LargeChange risk — it compares against the hardcoded constant 20, not
against `thresholds.largeChangePercentage`. -/
theorem largeChange_ignores_configured_threshold :
    validateConfig configLargeChange50 = true ∧
    largeChangeApplied ⟨2, 1, 10⟩ = true ∧
    ¬(percentageChanged ⟨2, 1, 10⟩ > configLargeChange50.thresholds.largeChangePercentage) := by
  have h30 : percentageChanged ⟨2, 1, 10⟩ = 30 := by
    norm_num [percentageChanged]
  refine ⟨by decide, ?_, ?_⟩
  · simp only [largeChangeApplied, h30]
    norm_num
  · rw [h30]
    norm_num [configLargeChange50, defaultConfig]

/-- C8 (amended): for `totalLines > 0` the derived LargeChange risk (flat
default weight 7) is appended to the presented risks and folded into the
presented score exactly when `(added+removed)/totalLines*100` exceeds the
hardcoded threshold 20; the configured `largeChangePercentage` and the
configured weights are not consulted by the report. -/
theorem largeChange_applied_iff_over_20 (file : String) (risks : List ScoredRisk)
    (total : ℚ) (stats : LineStats) (h : 0 < stats.totalLines) :
    (largeChangeApplied stats = true ↔
      ((stats.added : ℚ) + (stats.removed : ℚ)) / (stats.totalLines : ℚ) * 100 > 20) ∧
    fileFinalScore total stats =
      total + (if largeChangeApplied stats then defaultRiskWeights RiskFactorType.largeChange
               else 0) ∧
    presentedRisks file risks stats =
      risks ++ (if largeChangeApplied stats then
        [⟨file, RiskFactorType.largeChange, defaultRiskWeights RiskFactorType.largeChange⟩]
        else []) := by
  refine ⟨?_, ?_, ?_⟩
  · simp [largeChangeApplied, percentageChanged, h]
  · by_cases hl : largeChangeApplied stats <;> simp [fileFinalScore, hl]
  · by_cases hl : largeChangeApplied stats <;> simp [presentedRisks, hl]

/-- C8 witness: a file with 3 added, 1 removed of 10 lines (40% > 20) gets
the derived LargeChange risk appended with 7 points. -/
theorem largeChange_applied_iff_over_20_witness :
    0 < (LineStats.mk 3 1 10).totalLines ∧
    ((largeChangeApplied ⟨3, 1, 10⟩ = true ↔ ((3 : ℚ) + 1) / 10 * 100 > 20) ∧
     fileFinalScore 2 ⟨3, 1, 10⟩ =
       2 + (if largeChangeApplied ⟨3, 1, 10⟩ then
         defaultRiskWeights RiskFactorType.largeChange else 0) ∧
     presentedRisks "b.ts" [] ⟨3, 1, 10⟩ =
       [] ++ (if largeChangeApplied ⟨3, 1, 10⟩ then
         [⟨"b.ts", RiskFactorType.largeChange, defaultRiskWeights RiskFactorType.largeChange⟩]
         else [])) :=
  ⟨by decide, largeChange_applied_iff_over_20 "b.ts" [] 2 ⟨3, 1, 10⟩ (by decide)⟩

theorem isTypeNarrowed_self (asg : String → String → Bool) (t : String) :
    isTypeNarrowed asg t t = false := by
  simp [isTypeNarrowed]

theorem zip_self_eq_map (p : List String) : p.zip p = p.map fun a => (a, a) := by
  induction p with
  | nil => rfl
  | cons h t ih => simp [ih]

theorem compareFunctionSignature_self (asg : String → String → Bool)
    (r : String) (p : List String) : compareFunctionSignature asg r p r p = [] := by
  simp only [compareFunctionSignature, isTypeNarrowed_self, if_false, Bool.false_eq_true,
    lt_irrefl, gt_iff_lt, List.nil_append]
  rw [zip_self_eq_map]
  rw [List.filterMap_eq_nil_iff]
  intro ip hip
  have hpair : ip.2.1 = ip.2.2 := by
    rw [List.mem_enum_iff_getElem?, List.getElem?_map] at hip
    rcases h : p[ip.1]? with _ | a
    · rw [h] at hip; cases hip
    · rw [h] at hip
      simp at hip
      rw [← hip]
  rw [hpair, isTypeNarrowed_self]
  rfl

theorem lookupProp_isSome_of_mem_keys {l : List (String × Bool)} {n : String}
    (h : n ∈ l.map Prod.fst) : (lookupProp l n).isSome := by
  induction l with
  | nil => cases h
  | cons hd tl ih =>
    obtain ⟨k, v⟩ := hd
    by_cases hk : k = n
    · simp [lookupProp, hk]
    · have : n ∈ tl.map Prod.fst := by
        rcases List.mem_cons.mp h with h1 | h1
        · exact absurd h1.symm hk
        · exact h1
      simp [lookupProp, hk, ih this]

theorem compareInterfaces_self (props : List (String × Bool)) :
    compareInterfaces props props = [] := by
  simp only [compareInterfaces]
  rw [List.append_eq_nil]
  constructor
  · rw [List.filterMap_eq_nil_iff]
    intro name hname
    obtain ⟨v, hv⟩ := Option.isSome_iff_exists.mp (lookupProp_isSome_of_mem_keys hname)
    simp [hv]
  · rw [List.filterMap_eq_nil_iff]
    intro name hname
    obtain ⟨v, hv⟩ := Option.isSome_iff_exists.mp (lookupProp_isSome_of_mem_keys hname)
    simp [hv]

theorem analyzeFileStep_self (cfg : ResolvedConfig) (asg : String → String → Bool)
    (m : DeclMap) (acc : FileAnalysis) (name : String) :
    analyzeFileStep cfg asg m m acc name = acc := by
  rcases h : lookupDecl m name with _ | d
  · simp [analyzeFileStep, h]
  · rcases d with ⟨r, p⟩ | props | _
    · simp [analyzeFileStep, h, compareFunctionSignature_self]
    · simp [analyzeFileStep, h, compareInterfaces_self]
    · simp [analyzeFileStep, h]

/-- C5: running the structural diff on two parses of the same text yields
an empty issue list, an empty risk list, no changed exports, and
`fileScore = 0`, for every configuration and every assignability oracle. -/
theorem analyzeFile_self_eq_empty (cfg : ResolvedConfig) (asg : String → String → Bool)
    (parse : String → DeclMap) (x : String) :
    analyzeFile cfg asg (parse x) (parse x) =
      { issues := [], changedExports := [], scores := [], fileScore := 0 } := by
  have hfold : ∀ (l : List String) (acc : FileAnalysis),
      l.foldl (analyzeFileStep cfg asg (parse x) (parse x)) acc = acc := by
    intro l
    induction l with
    | nil => intro acc; rfl
    | cons hd tl ih =>
      intro acc
      rw [List.foldl_cons, analyzeFileStep_self, ih]
  simp only [analyzeFile]
  exact hfold _ _

/-- C10: when the parameter lists have different lengths, the signature
comparison emits exactly one issue carrying the count of removed or added
parameters (after the optional return-narrowing issue) and performs no
positional parameter-narrowing checks at all. -/
theorem paramCount_issue_when_lengths_differ (asg : String → String → Bool)
    (oldRet : String) (oldParams : List String)
    (newRet : String) (newParams : List String)
    (h : oldParams.length ≠ newParams.length) :
    compareFunctionSignature asg oldRet oldParams newRet newParams =
      (if isTypeNarrowed asg oldRet newRet then [SigIssue.returnNarrowed] else []) ++
      [if newParams.length < oldParams.length then
         SigIssue.paramsRemoved (oldParams.length - newParams.length)
       else SigIssue.paramsAdded (newParams.length - oldParams.length)] ∧
    ∀ i, SigIssue.paramNarrowed i ∉
      compareFunctionSignature asg oldRet oldParams newRet newParams := by
  rcases Nat.lt_or_ge newParams.length oldParams.length with hlt | hge
  · constructor
    · simp [compareFunctionSignature, hlt]
    · intro i hmem
      simp only [compareFunctionSignature, if_pos hlt] at hmem
      rcases List.mem_append.mp hmem with hm | hm
      · rcases hr : isTypeNarrowed asg oldRet newRet <;> rw [hr] at hm <;> simp at hm
      · simp at hm
  · have hgt : newParams.length > oldParams.length :=
      lt_of_le_of_ne hge h
    have hnlt : ¬ (newParams.length < oldParams.length) := not_lt.mpr hge
    constructor
    · simp [compareFunctionSignature, hnlt, hgt]
    · intro i hmem
      simp only [compareFunctionSignature, if_neg hnlt, if_pos hgt] at hmem
      rcases List.mem_append.mp hmem with hm | hm
      · rcases hr : isTypeNarrowed asg oldRet newRet <;> rw [hr] at hm <;> simp at hm
      · simp at hm

/-- C10 witness: dropping the only parameter of a one-parameter function
yields exactly the `Removed 1 parameter(s)` issue. -/
theorem paramCount_issue_when_lengths_differ_witness :
    (["A"] : List String).length ≠ ([] : List String).length ∧
    (compareFunctionSignature (fun _ _ => false) "R" ["A"] "R" [] =
      (if isTypeNarrowed (fun _ _ => false) "R" "R" then [SigIssue.returnNarrowed] else []) ++
      [if ([] : List String).length < (["A"] : List String).length then
         SigIssue.paramsRemoved ((["A"] : List String).length - ([] : List String).length)
       else SigIssue.paramsAdded (([] : List String).length - (["A"] : List String).length)] ∧
     ∀ i, SigIssue.paramNarrowed i ∉
       compareFunctionSignature (fun _ _ => false) "R" ["A"] "R" []) :=
  ⟨by decide, paramCount_issue_when_lengths_differ (fun _ _ => false) "R" ["A"] "R" []
    (by decide)⟩

theorem lookupProp_eq_none_iff (l : List (String × Bool)) (p : String) :
    lookupProp l p = none ↔ p ∉ l.map Prod.fst := by
  induction l with
  | nil => simp [lookupProp]
  | cons hd tl ih =>
    obtain ⟨k, v⟩ := hd
    by_cases hk : k = p
    · subst hk
      simp [lookupProp]
    · simp only [lookupProp, if_neg hk, List.map_cons, List.mem_cons, ih]
      constructor
      · intro hnp hor
        rcases hor with h1 | h1
        · exact hk h1.symm
        · exact hnp h1
      · intro hnp h1
        exact hnp (Or.inr h1)

theorem mem_keys_objInsert (l : List (String × Bool)) (k : String) (v : Bool) (p : String) :
    p ∈ (objInsert l k v).map Prod.fst ↔ p = k ∨ p ∈ l.map Prod.fst := by
  induction l with
  | nil => simp [objInsert, eq_comm]
  | cons hd tl ih =>
    obtain ⟨k', v'⟩ := hd
    by_cases hk : k' = k
    · subst hk
      have he : objInsert ((k', v') :: tl) k' v = (k', v) :: tl := by
        simp [objInsert]
      rw [he]
      simp only [List.map_cons, List.mem_cons]
      tauto
    · have he : objInsert ((k', v') :: tl) k v = (k', v') :: objInsert tl k v := by
        simp [objInsert, hk]
      rw [he]
      simp only [List.map_cons, List.mem_cons, ih]
      tauto

theorem mem_keys_objEntries (props : List (String × Bool)) (p : String) :
    p ∈ (objEntries props).map Prod.fst ↔ p ∈ props.map Prod.fst := by
  have hgen : ∀ (l acc : List (String × Bool)),
      (p ∈ (l.foldl (fun a kv => objInsert a kv.1 kv.2) acc).map Prod.fst
        ↔ p ∈ acc.map Prod.fst ∨ p ∈ l.map Prod.fst) := by
    intro l
    induction l with
    | nil => simp
    | cons hd tl ih =>
      intro acc
      rw [List.foldl_cons, ih, mem_keys_objInsert]
      simp only [List.map_cons, List.mem_cons]
      tauto
  have := hgen props []
  simpa [objEntries] using this

theorem mem_keys_of_lookupProp_some {l : List (String × Bool)} {p : String} {v : Bool}
    (h : lookupProp l p = some v) : p ∈ l.map Prod.fst := by
  by_contra hc
  rw [(lookupProp_eq_none_iff l p).mpr hc] at h
  cases h

theorem propRemoved_mem_compareInterfaces (oldProps newProps : List (String × Bool))
    (p : String) :
    IfaceIssue.propRemoved p ∈ compareInterfaces oldProps newProps ↔
      p ∈ oldProps.map Prod.fst ∧ p ∉ newProps.map Prod.fst := by
  simp only [compareInterfaces, List.mem_append, List.mem_filterMap]
  constructor
  · rintro (⟨nm, hnm, hf⟩ | ⟨nm, hnm, hf⟩)
    · rcases hl : lookupProp (objEntries newProps) nm with _ | isOpt
      · rw [hl] at hf
        simp only [Option.some.injEq, IfaceIssue.propRemoved.injEq] at hf
        subst hf
        have hnotin : nm ∉ (objEntries newProps).map Prod.fst :=
          (lookupProp_eq_none_iff _ _).mp hl
        exact ⟨(mem_keys_objEntries _ _).mp hnm,
          fun hmem => hnotin ((mem_keys_objEntries _ _).mpr hmem)⟩
      · rw [hl] at hf
        rcases hl2 : lookupProp (objEntries oldProps) nm with _ | wasOpt
        · rw [hl2] at hf
          simp at hf
        · rw [hl2] at hf
          dsimp only at hf
          by_cases hcond : (wasOpt && !isOpt) = true
          · rw [if_pos hcond] at hf
            simp at hf
          · rw [if_neg hcond] at hf
            cases hf
    · by_cases hno : (lookupProp (objEntries oldProps) nm).isNone
      · rw [if_pos hno] at hf
        simp at hf
      · rw [if_neg hno] at hf
        cases hf
  · rintro ⟨hpo, hpn⟩
    left
    refine ⟨p, (mem_keys_objEntries _ _).mpr hpo, ?_⟩
    have hnone : lookupProp (objEntries newProps) p = none :=
      (lookupProp_eq_none_iff _ _).mpr (fun hm => hpn ((mem_keys_objEntries _ _).mp hm))
    rw [hnone]

theorem nowRequired_mem_compareInterfaces (oldProps newProps : List (String × Bool))
    (p : String) :
    IfaceIssue.nowRequired p ∈ compareInterfaces oldProps newProps ↔
      lookupProp (objEntries oldProps) p = some true ∧
      lookupProp (objEntries newProps) p = some false := by
  simp only [compareInterfaces, List.mem_append, List.mem_filterMap]
  constructor
  · rintro (⟨nm, hnm, hf⟩ | ⟨nm, hnm, hf⟩)
    · rcases hl : lookupProp (objEntries newProps) nm with _ | isOpt
      · rw [hl] at hf
        simp at hf
      · rw [hl] at hf
        rcases hl2 : lookupProp (objEntries oldProps) nm with _ | wasOpt
        · rw [hl2] at hf
          simp at hf
        · rw [hl2] at hf
          dsimp only at hf
          by_cases hcond : (wasOpt && !isOpt) = true
          · rw [if_pos hcond] at hf
            simp only [Option.some.injEq, IfaceIssue.nowRequired.injEq] at hf
            subst hf
            obtain ⟨hw, hi⟩ := Bool.and_eq_true_iff.mp hcond
            rw [Bool.not_eq_true' ] at hi
            rw [hw] at hl2
            rw [hi] at hl
            exact ⟨hl2, hl⟩
          · rw [if_neg hcond] at hf
            cases hf
    · by_cases hno : (lookupProp (objEntries oldProps) nm).isNone
      · rw [if_pos hno] at hf
        simp at hf
      · rw [if_neg hno] at hf
        cases hf
  · rintro ⟨ho, hn⟩
    left
    refine ⟨p, mem_keys_of_lookupProp_some ho, ?_⟩
    rw [ho, hn]
    rfl

theorem propAdded_mem_compareInterfaces (oldProps newProps : List (String × Bool))
    (p : String) :
    IfaceIssue.propAdded p ∈ compareInterfaces oldProps newProps ↔
      p ∈ newProps.map Prod.fst ∧ p ∉ oldProps.map Prod.fst := by
  simp only [compareInterfaces, List.mem_append, List.mem_filterMap]
  constructor
  · rintro (⟨nm, hnm, hf⟩ | ⟨nm, hnm, hf⟩)
    · rcases hl : lookupProp (objEntries newProps) nm with _ | isOpt
      · rw [hl] at hf
        simp at hf
      · rw [hl] at hf
        rcases hl2 : lookupProp (objEntries oldProps) nm with _ | wasOpt
        · rw [hl2] at hf
          simp at hf
        · rw [hl2] at hf
          dsimp only at hf
          by_cases hcond : (wasOpt && !isOpt) = true
          · rw [if_pos hcond] at hf
            simp at hf
          · rw [if_neg hcond] at hf
            cases hf
    · by_cases hno : (lookupProp (objEntries oldProps) nm).isNone
      · rw [if_pos hno] at hf
        simp only [Option.some.injEq, IfaceIssue.propAdded.injEq] at hf
        subst hf
        refine ⟨(mem_keys_objEntries _ _).mp hnm, fun hmem => ?_⟩
        rw [Option.isNone_iff_eq_none, lookupProp_eq_none_iff] at hno
        exact hno ((mem_keys_objEntries _ _).mpr hmem)
      · rw [if_neg hno] at hf
        cases hf
  · rintro ⟨hpn, hpo⟩
    right
    refine ⟨p, (mem_keys_objEntries _ _).mpr hpn, ?_⟩
    have hnone : lookupProp (objEntries oldProps) p = none :=
      (lookupProp_eq_none_iff _ _).mpr (fun hm => hpo ((mem_keys_objEntries _ _).mp hm))
    rw [if_pos (Option.isNone_iff_eq_none.mpr hnone)]

/-- Old version of the C3 example: `interface U { a }`. -/
def c3OldMap : DeclMap := [("U", Decl.iface [("a", false)])]

/-- New version of the C3 example: `interface U { a; b }` (property `b`
newly added). -/
def c3NewMap : DeclMap := [("U", Decl.iface [("a", false), ("b", false)])]

/-- C3 counterexample: a property present only in the new interface is NOT
merely informational — the diff emits a `propAdded` issue and the caller
scores it like every other interface change, producing one `PropsChanged`
`ScoredRisk` with the configured weight 10 and a non-zero `fileScore`. -/
theorem propAdded_is_scored_counterexample :
    (analyzeFile defaultConfig (fun _ _ => false) c3NewMap c3OldMap).issues =
      [AnalysisIssue.interfaceIssue "U" (IfaceIssue.propAdded "b")] ∧
    (analyzeFile defaultConfig (fun _ _ => false) c3NewMap c3OldMap).scores =
      [⟨"U", RiskFactorType.propsChanged, 10⟩] ∧
    (analyzeFile defaultConfig (fun _ _ => false) c3NewMap c3OldMap).fileScore = 10 ∧
    (analyzeFile defaultConfig (fun _ _ => false) c3NewMap c3OldMap).fileScore ≠ 0 := by
  refine ⟨by decide, by with_unfolding_all decide, by with_unfolding_all decide,
    by with_unfolding_all decide⟩

/-- C3 (amended): for an exported symbol that is an interface in both
versions, a removed property yields a `propRemoved` issue, an
optional-to-required transition yields a `nowRequired` issue, and a property
present only in the new version yields a `propAdded` issue; every one of
these issues (the added-property one included) is scored identically — one
`PropsChanged` risk with the configured weight, folded into `fileScore`. -/
theorem interface_props_scoring (cfg : ResolvedConfig) (asg : String → String → Bool)
    (oldMap newMap : DeclMap) (acc : FileAnalysis) (name : String)
    (oldProps newProps : List (String × Bool))
    (h1 : lookupDecl oldMap name = some (Decl.iface oldProps))
    (h2 : lookupDecl newMap name = some (Decl.iface newProps)) :
    ((analyzeFileStep cfg asg oldMap newMap acc name).scores =
        acc.scores ++ (compareInterfaces oldProps newProps).map (fun _ =>
          ⟨name, RiskFactorType.propsChanged, cfg.riskWeights RiskFactorType.propsChanged⟩) ∧
     (analyzeFileStep cfg asg oldMap newMap acc name).fileScore =
        acc.fileScore + qOfNat (compareInterfaces oldProps newProps).length *
          cfg.riskWeights RiskFactorType.propsChanged) ∧
    (∀ p, IfaceIssue.propRemoved p ∈ compareInterfaces oldProps newProps ↔
       p ∈ oldProps.map Prod.fst ∧ p ∉ newProps.map Prod.fst) ∧
    (∀ p, IfaceIssue.nowRequired p ∈ compareInterfaces oldProps newProps ↔
       lookupProp (objEntries oldProps) p = some true ∧
       lookupProp (objEntries newProps) p = some false) ∧
    (∀ p, IfaceIssue.propAdded p ∈ compareInterfaces oldProps newProps ↔
       p ∈ newProps.map Prod.fst ∧ p ∉ oldProps.map Prod.fst) := by
  refine ⟨?_, propRemoved_mem_compareInterfaces oldProps newProps,
    nowRequired_mem_compareInterfaces oldProps newProps,
    propAdded_mem_compareInterfaces oldProps newProps⟩
  rcases hch : compareInterfaces oldProps newProps with _ | ⟨c, cs⟩
  · constructor <;> simp [analyzeFileStep, h1, h2, hch, qOfNat_eq_cast]
  · constructor <;> simp [analyzeFileStep, h1, h2, hch, qOfNat_eq_cast, mul_comm]

/-- C3 witness: the amended scoring theorem instantiated on the concrete
`interface U { a }` → `interface U { a; b }` example. -/
theorem interface_props_scoring_witness :
    (lookupDecl c3OldMap "U" = some (Decl.iface [("a", false)]) ∧
     lookupDecl c3NewMap "U" = some (Decl.iface [("a", false), ("b", false)])) ∧
    (((analyzeFileStep defaultConfig (fun _ _ => false) c3OldMap c3NewMap
          ⟨[], [], [], 0⟩ "U").scores =
        ([] : List ScoredRisk) ++
          (compareInterfaces [("a", false)] [("a", false), ("b", false)]).map (fun _ =>
            ⟨"U", RiskFactorType.propsChanged,
             defaultConfig.riskWeights RiskFactorType.propsChanged⟩) ∧
      (analyzeFileStep defaultConfig (fun _ _ => false) c3OldMap c3NewMap
          ⟨[], [], [], 0⟩ "U").fileScore =
        0 + qOfNat (compareInterfaces [("a", false)] [("a", false), ("b", false)]).length *
          defaultConfig.riskWeights RiskFactorType.propsChanged) ∧
     (∀ p, IfaceIssue.propRemoved p ∈
          compareInterfaces [("a", false)] [("a", false), ("b", false)] ↔
        p ∈ [("a", false)].map Prod.fst ∧
        p ∉ [("a", false), ("b", false)].map Prod.fst) ∧
     (∀ p, IfaceIssue.nowRequired p ∈
          compareInterfaces [("a", false)] [("a", false), ("b", false)] ↔
        lookupProp (objEntries [("a", false)]) p = some true ∧
        lookupProp (objEntries [("a", false), ("b", false)]) p = some false) ∧
     (∀ p, IfaceIssue.propAdded p ∈
          compareInterfaces [("a", false)] [("a", false), ("b", false)] ↔
        p ∈ [("a", false), ("b", false)].map Prod.fst ∧
        p ∉ [("a", false)].map Prod.fst)) :=
  ⟨⟨by decide, by decide⟩,
   interface_props_scoring defaultConfig (fun _ _ => false) c3OldMap c3NewMap
     ⟨[], [], [], 0⟩ "U" [("a", false)] [("a", false), ("b", false)]
     (by decide) (by decide)⟩

/-- Environment for the C2 counterexample: old-content retrieval fails (the
`"Skipped"` sentinel), everything else is benign. -/
def c2FailEnv : BCEnv :=
  { getOldCode := fun _ => "Skipped"
    getNewCode := fun _ => "code"
    includeTests := true
    testFilterInclude := fun _ => false
    sourceFilterInclude := fun _ => true
    hasSupportedExtension := fun _ => true
    parse := fun _ => []
    asg := fun _ _ => true
    testTexts := [] }

/-- C2 counterexample: a `Deleted` file whose old-content retrieval returns
the `"Skipped"` sentinel produces NO `FileRemoved` risk at all — the
retrieval-failure skip runs before the `status === 'D'` branch, so the file
lands in `skippedFiles.failed` with zero score, contradicting "regardless of
what the old or new content retrieval returns". -/
theorem deleted_file_skipped_on_failed_fetch :
    analyzeBreakingChanges defaultConfig c2FailEnv
        [{ path := "a.ts", status := ChangeStatus.D }] =
      { issues := [], scores := [], totalScore := 0,
        skipped := { unsupported := [], failed := ["a.ts"], empty := [], tests := [] } } := by
  with_unfolding_all decide

/-- C2 (amended): a `Deleted` file that passes the skip checks (not a test
file, supported, both content fetches succeed and are non-empty after
trimming) yields exactly one `FileRemoved` risk with the configured weight,
and the loop body stops there: no structural diffing, no missing-test check,
no other output. -/
theorem deleted_file_single_fileRemoved_risk (cfg : ResolvedConfig) (env : BCEnv)
    (st : BCState) (f : FileChange)
    (hT : env.testFilterInclude f.path = false)
    (hS : env.sourceFilterInclude f.path = true)
    (hE : env.hasSupportedExtension f.path = true)
    (hO : env.getOldCode f.path ≠ "Skipped")
    (hN : env.getNewCode f.path ≠ "Skipped")
    (hOt : jsTrim (env.getOldCode f.path) ≠ "")
    (hNt : jsTrim (env.getNewCode f.path) ≠ "")
    (hD : f.status = ChangeStatus.D) :
    processFile cfg env st f =
      { st with
          issues := st.issues ++ [BCIssue.fileRemoved]
          scores := objSetRisks st.scores f.path
            [⟨f.path, RiskFactorType.fileRemoved,
              cfg.riskWeights RiskFactorType.fileRemoved⟩]
          totalScore := st.totalScore + cfg.riskWeights RiskFactorType.fileRemoved } := by
  simp [processFile, hT, hS, hE, hO, hN, hOt, hNt, hD]

/-- Environment for the C2 witness: both fetches succeed with non-empty
content. -/
def c2OkEnv : BCEnv :=
  { getOldCode := fun _ => "old"
    getNewCode := fun _ => "new"
    includeTests := true
    testFilterInclude := fun _ => false
    sourceFilterInclude := fun _ => true
    hasSupportedExtension := fun _ => true
    parse := fun _ => []
    asg := fun _ _ => true
    testTexts := [] }

/-- The initial loop state of `analyzeBreakingChanges`. -/
def initialBCState : BCState :=
  { issues := [], scores := [], totalScore := 0,
    skipped := { unsupported := [], failed := [], empty := [], tests := [] } }

/-- C2 witness: the amended theorem applied to a concrete deleted file with
retrievable non-empty contents. -/
theorem deleted_file_single_fileRemoved_risk_witness :
    (c2OkEnv.testFilterInclude "a.ts" = false ∧
     c2OkEnv.sourceFilterInclude "a.ts" = true ∧
     c2OkEnv.hasSupportedExtension "a.ts" = true ∧
     c2OkEnv.getOldCode "a.ts" ≠ "Skipped" ∧
     c2OkEnv.getNewCode "a.ts" ≠ "Skipped" ∧
     jsTrim (c2OkEnv.getOldCode "a.ts") ≠ "" ∧
     jsTrim (c2OkEnv.getNewCode "a.ts") ≠ "") ∧
    processFile defaultConfig c2OkEnv initialBCState
        { path := "a.ts", status := ChangeStatus.D } =
      { initialBCState with
          issues := initialBCState.issues ++ [BCIssue.fileRemoved]
          scores := objSetRisks initialBCState.scores "a.ts"
            [⟨"a.ts", RiskFactorType.fileRemoved,
              defaultConfig.riskWeights RiskFactorType.fileRemoved⟩]
          totalScore := initialBCState.totalScore +
            defaultConfig.riskWeights RiskFactorType.fileRemoved } :=
  ⟨⟨by decide, by decide, by decide, by decide, by decide, by decide, by decide⟩,
   deleted_file_single_fileRemoved_risk defaultConfig c2OkEnv initialBCState
     { path := "a.ts", status := ChangeStatus.D }
     (by decide) (by decide) (by decide) (by decide) (by decide) (by decide) (by decide)
     rfl⟩

/-- Modelled from the spec: the "concatenation of all test files' text"
exactly as the specification words it — plain concatenation, with no
separator. Used only to compare the spec's wording against the source's
newline-joined corpus. -/
def specConcatCorpus (testTexts : List String) : String := String.join testTexts

/-- C6 counterexample: with test files `"ab"` and `"cd"`, the symbol `"bc"`
occurs as a literal substring of the plain concatenation `"abcd"`, yet the
code reports it untested, because the source joins the corpus with `"\n"`
(`"ab\nncd"` does not contain `"bc"`). -/
theorem untested_differs_from_plain_concatenation :
    findUntestedChanges ["bc"] ["ab", "cd"] = ["bc"] ∧
    jsIncludes (specConcatCorpus ["ab", "cd"]) "bc" = true := by
  constructor <;> decide

/-- C6 (amended): a symbol is reported untested exactly when it does not
occur as a literal substring of the newline-joined concatenation of all test
files' text; and when the untested list is non-empty exactly one flat-weight
`MissingTest` risk is appended to the file's entry — never one per symbol. -/
theorem missingTest_single_flat_risk (cfg : ResolvedConfig) (env : BCEnv)
    (st : BCState) (f : FileChange)
    (hT : env.testFilterInclude f.path = false)
    (hS : env.sourceFilterInclude f.path = true)
    (hE : env.hasSupportedExtension f.path = true)
    (hO : env.getOldCode f.path ≠ "Skipped")
    (hN : env.getNewCode f.path ≠ "Skipped")
    (hOt : jsTrim (env.getOldCode f.path) ≠ "")
    (hNt : jsTrim (env.getNewCode f.path) ≠ "")
    (hM : f.status = ChangeStatus.M)
    (hI : env.includeTests = true)
    (hU : findUntestedChanges
        (if (analyzeFile cfg env.asg (env.parse (env.getNewCode f.path))
              (env.parse (env.getOldCode f.path))).changedExports.length > 0
         then (analyzeFile cfg env.asg (env.parse (env.getNewCode f.path))
              (env.parse (env.getOldCode f.path))).changedExports
         else ["(file)"]) env.testTexts ≠ []) :
    (∀ names texts n, n ∈ findUntestedChanges names texts ↔
       n ∈ names ∧ jsIncludes (testFileTextOf texts) n = false) ∧
    processFile cfg env st f =
      (let fa := analyzeFile cfg env.asg (env.parse (env.getNewCode f.path))
        (env.parse (env.getOldCode f.path))
       let untested := findUntestedChanges
         (if fa.changedExports.length > 0 then fa.changedExports else ["(file)"])
         env.testTexts
       let st1 := if fa.issues.length > 0 then
           { st with issues := st.issues ++ [BCIssue.fileDiff f.path fa.issues] }
         else st
       let st2 := if fa.scores.length > 0 then
           { st1 with
               scores := objSetRisks st1.scores f.path fa.scores
               totalScore := st1.totalScore + fa.fileScore }
         else st1
       { st2 with
           issues := st2.issues ++ [BCIssue.untested untested]
           scores := objAppendRisk st2.scores f.path
             ⟨f.path, RiskFactorType.missingTest,
              cfg.riskWeights RiskFactorType.missingTest⟩
           totalScore := st2.totalScore + cfg.riskWeights RiskFactorType.missingTest }) := by
  constructor
  · intro names texts n
    simp [findUntestedChanges, List.mem_filter]
  · have hlen : 0 < (findUntestedChanges
        (if (analyzeFile cfg env.asg (env.parse (env.getNewCode f.path))
              (env.parse (env.getOldCode f.path))).changedExports.length > 0
         then (analyzeFile cfg env.asg (env.parse (env.getNewCode f.path))
              (env.parse (env.getOldCode f.path))).changedExports
         else ["(file)"]) env.testTexts).length := List.length_pos.mpr hU
    simp only [processFile, hT, hS, hE, hM, hI]
    rcases hr : f.renamedFrom with _ | src <;> simp [hO, hN, hOt, hNt, hlen, hr]

/-- Environment for the C6 witness: the old version exports `foo`, the new
one does not, and the test corpus `"x"` never mentions `foo`. -/
def c6Env : BCEnv :=
  { getOldCode := fun _ => "old"
    getNewCode := fun _ => "new"
    includeTests := true
    testFilterInclude := fun _ => false
    sourceFilterInclude := fun _ => true
    hasSupportedExtension := fun _ => true
    parse := fun t => if t = "old" then [("foo", Decl.other)] else []
    asg := fun _ _ => true
    testTexts := ["x"] }

/-- C6 witness: the amended theorem applied to a concrete modified file with
an untested removed export. -/
theorem missingTest_single_flat_risk_witness :
    (c6Env.testFilterInclude "a.ts" = false ∧
     c6Env.sourceFilterInclude "a.ts" = true ∧
     c6Env.hasSupportedExtension "a.ts" = true ∧
     c6Env.getOldCode "a.ts" ≠ "Skipped" ∧
     c6Env.getNewCode "a.ts" ≠ "Skipped" ∧
     jsTrim (c6Env.getOldCode "a.ts") ≠ "" ∧
     jsTrim (c6Env.getNewCode "a.ts") ≠ "" ∧
     findUntestedChanges
       (if (analyzeFile defaultConfig c6Env.asg (c6Env.parse (c6Env.getNewCode "a.ts"))
             (c6Env.parse (c6Env.getOldCode "a.ts"))).changedExports.length > 0
        then (analyzeFile defaultConfig c6Env.asg (c6Env.parse (c6Env.getNewCode "a.ts"))
             (c6Env.parse (c6Env.getOldCode "a.ts"))).changedExports
        else ["(file)"]) c6Env.testTexts ≠ []) ∧
    ((∀ names texts n, n ∈ findUntestedChanges names texts ↔
        n ∈ names ∧ jsIncludes (testFileTextOf texts) n = false) ∧
     processFile defaultConfig c6Env initialBCState
         { path := "a.ts", status := ChangeStatus.M } =
       (let fa := analyzeFile defaultConfig c6Env.asg
          (c6Env.parse (c6Env.getNewCode "a.ts")) (c6Env.parse (c6Env.getOldCode "a.ts"))
        let untested := findUntestedChanges
          (if fa.changedExports.length > 0 then fa.changedExports else ["(file)"])
          c6Env.testTexts
        let st1 := if fa.issues.length > 0 then
            { initialBCState with
                issues := initialBCState.issues ++ [BCIssue.fileDiff "a.ts" fa.issues] }
          else initialBCState
        let st2 := if fa.scores.length > 0 then
            { st1 with
                scores := objSetRisks st1.scores "a.ts" fa.scores
                totalScore := st1.totalScore + fa.fileScore }
          else st1
        { st2 with
            issues := st2.issues ++ [BCIssue.untested untested]
            scores := objAppendRisk st2.scores "a.ts"
              ⟨"a.ts", RiskFactorType.missingTest,
               defaultConfig.riskWeights RiskFactorType.missingTest⟩
            totalScore := st2.totalScore +
              defaultConfig.riskWeights RiskFactorType.missingTest })) :=
  ⟨⟨by decide, by decide, by decide, by decide, by decide, by decide, by decide,
    by with_unfolding_all decide⟩,
   missingTest_single_flat_risk defaultConfig c6Env initialBCState
     { path := "a.ts", status := ChangeStatus.M }
     (by decide) (by decide) (by decide) (by decide) (by decide) (by decide) (by decide)
     rfl rfl (by with_unfolding_all decide)⟩

/-- Keys of the breaking-change scores object. -/
def scoresKeys (l : List (String × List ScoredRisk)) : List String := l.map Prod.fst

/-- Total points recorded in the breaking-change scores object. -/
def scoresPointsSum (l : List (String × List ScoredRisk)) : ℚ :=
  (l.map fun e => riskPointsSum e.2).sum

theorem riskPointsSum_nil : riskPointsSum [] = 0 := rfl

theorem riskPointsSum_singleton (r : ScoredRisk) : riskPointsSum [r] = r.points := by
  simp [riskPointsSum]

theorem riskPointsSum_append (a b : List ScoredRisk) :
    riskPointsSum (a ++ b) = riskPointsSum a + riskPointsSum b := by
  simp [riskPointsSum]

theorem riskPointsSum_replicate (n : Nat) (c : ScoredRisk) :
    riskPointsSum (List.replicate n c) = qOfNat n * c.points := by
  rw [qOfNat_eq_cast]
  induction n with
  | zero => simp [riskPointsSum]
  | succ k ih =>
    simp only [List.replicate_succ, riskPointsSum, List.map_cons, List.sum_cons] at *
    rw [ih]
    push_cast
    ring

theorem objSetRisks_fresh {l : List (String × List ScoredRisk)} {path : String}
    (h : path ∉ scoresKeys l) (rs : List ScoredRisk) :
    objSetRisks l path rs = l ++ [(path, rs)] := by
  induction l with
  | nil => rfl
  | cons hd tl ih =>
    obtain ⟨k, v⟩ := hd
    have hk : ¬ k = path := by
      intro hkp
      exact h (by simp [scoresKeys, hkp])
    have htl : path ∉ scoresKeys tl := by
      intro hx
      exact h (by simp [scoresKeys] at hx ⊢; right; exact hx)
    simp [objSetRisks, hk, ih htl]

theorem scoresPointsSum_append (a b : List (String × List ScoredRisk)) :
    scoresPointsSum (a ++ b) = scoresPointsSum a + scoresPointsSum b := by
  simp [scoresPointsSum]

theorem scoresPointsSum_singleton (p : String) (rs : List ScoredRisk) :
    scoresPointsSum [(p, rs)] = riskPointsSum rs := by
  simp [scoresPointsSum]

theorem scoresPointsSum_objAppendRisk (l : List (String × List ScoredRisk))
    (path : String) (r : ScoredRisk) :
    scoresPointsSum (objAppendRisk l path r) = scoresPointsSum l + r.points := by
  induction l with
  | nil => simp [objAppendRisk, scoresPointsSum, riskPointsSum]
  | cons hd tl ih =>
    obtain ⟨k, v⟩ := hd
    by_cases hk : k = path
    · simp [objAppendRisk, hk, scoresPointsSum, riskPointsSum_append, riskPointsSum]
      ring
    · simp only [objAppendRisk, if_neg hk, scoresPointsSum, List.map_cons, List.sum_cons]
      have := ih
      simp only [scoresPointsSum] at this
      rw [this]
      ring

theorem scoresKeys_objSetRisks (l : List (String × List ScoredRisk)) (path : String)
    (rs : List ScoredRisk) :
    ∀ x ∈ scoresKeys (objSetRisks l path rs), x ∈ scoresKeys l ∨ x = path := by
  induction l with
  | nil => simp [objSetRisks, scoresKeys]
  | cons hd tl ih =>
    obtain ⟨k, v⟩ := hd
    by_cases hk : k = path
    · intro x hx
      simp only [objSetRisks, if_pos hk, scoresKeys, List.map_cons, List.mem_cons] at hx ⊢
      tauto
    · intro x hx
      simp only [objSetRisks, if_neg hk, scoresKeys, List.map_cons, List.mem_cons] at hx ⊢
      rcases hx with hx | hx
      · tauto
      · rcases ih x hx with h1 | h1
        · exact Or.inl (Or.inr h1)
        · exact Or.inr h1

theorem scoresKeys_objAppendRisk (l : List (String × List ScoredRisk)) (path : String)
    (r : ScoredRisk) :
    ∀ x ∈ scoresKeys (objAppendRisk l path r), x ∈ scoresKeys l ∨ x = path := by
  induction l with
  | nil => simp [objAppendRisk, scoresKeys]
  | cons hd tl ih =>
    obtain ⟨k, v⟩ := hd
    by_cases hk : k = path
    · intro x hx
      simp only [objAppendRisk, if_pos hk, scoresKeys, List.map_cons, List.mem_cons] at hx ⊢
      tauto
    · intro x hx
      simp only [objAppendRisk, if_neg hk, scoresKeys, List.map_cons, List.mem_cons] at hx ⊢
      rcases hx with hx | hx
      · tauto
      · rcases ih x hx with h1 | h1
        · exact Or.inl (Or.inr h1)
        · exact Or.inr h1

/-- Inside `analyzeFile`, `fileScore` always equals the sum of the points of
the risks pushed so far: every push is accompanied by the matching
increment. -/
theorem analyzeFileStep_fileScore (cfg : ResolvedConfig) (asg : String → String → Bool)
    (oldMap newMap : DeclMap) (acc : FileAnalysis) (name : String)
    (h : acc.fileScore = riskPointsSum acc.scores) :
    (analyzeFileStep cfg asg oldMap newMap acc name).fileScore =
      riskPointsSum (analyzeFileStep cfg asg oldMap newMap acc name).scores := by
  rcases ho : lookupDecl oldMap name with _ | od <;>
    rcases hn : lookupDecl newMap name with _ | nd
  · simp [analyzeFileStep, ho, hn, h]
  · simp [analyzeFileStep, ho, hn, riskPointsSum_append, h, riskPointsSum]
  · simp [analyzeFileStep, ho, hn, riskPointsSum_append, h, riskPointsSum]
  · rcases od with ⟨r, p⟩ | props | _ <;> rcases nd with ⟨r2, p2⟩ | props2 | _ <;>
      simp [analyzeFileStep, ho, hn, h, riskPointsSum_append, riskPointsSum_replicate] <;>
      split <;>
      simp [riskPointsSum_append, riskPointsSum_replicate, h]

theorem analyzeFile_fileScore (cfg : ResolvedConfig) (asg : String → String → Bool)
    (newMap oldMap : DeclMap) :
    (analyzeFile cfg asg newMap oldMap).fileScore =
      riskPointsSum (analyzeFile cfg asg newMap oldMap).scores := by
  have hfold : ∀ (l : List String) (acc : FileAnalysis),
      acc.fileScore = riskPointsSum acc.scores →
      (l.foldl (analyzeFileStep cfg asg oldMap newMap) acc).fileScore =
        riskPointsSum (l.foldl (analyzeFileStep cfg asg oldMap newMap) acc).scores := by
    intro l
    induction l with
    | nil => intro acc h; exact h
    | cons hd tl ih =>
      intro acc h
      rw [List.foldl_cons]
      exact ih _ (analyzeFileStep_fileScore cfg asg oldMap newMap acc hd h)
  exact hfold _ _ (by simp [riskPointsSum])

theorem keys_case_set {l : List (String × List ScoredRisk)} {p : String}
    {rs : List ScoredRisk} {x : String}
    (hx : x ∈ scoresKeys (objSetRisks l p rs)) : x ∈ scoresKeys l ∨ x = p :=
  scoresKeys_objSetRisks l p rs x hx

theorem keys_case_append {l : List (String × List ScoredRisk)} {p : String}
    {r : ScoredRisk} {x : String}
    (hx : x ∈ scoresKeys (objAppendRisk l p r)) : x ∈ scoresKeys l ∨ x = p :=
  scoresKeys_objAppendRisk l p r x hx

theorem keys_case_append_set {l : List (String × List ScoredRisk)} {p : String}
    {rs : List ScoredRisk} {r : ScoredRisk} {x : String}
    (hx : x ∈ scoresKeys (objAppendRisk (objSetRisks l p rs) p r)) :
    x ∈ scoresKeys l ∨ x = p := by
  rcases scoresKeys_objAppendRisk _ _ _ x hx with h | h
  · exact scoresKeys_objSetRisks l p rs x h
  · exact Or.inr h

set_option maxHeartbeats 1600000 in
/-- For a Modified or Deleted file whose path has no scores entry yet, one
loop iteration of `analyzeBreakingChanges` adds to `totalScore` exactly the
points it records into the scores object, and records them only under the
file's own path. -/
theorem processFile_points (cfg : ResolvedConfig) (env : BCEnv) (st : BCState)
    (f : FileChange)
    (hstatus : f.status = ChangeStatus.M ∨ f.status = ChangeStatus.D)
    (hfresh : f.path ∉ scoresKeys st.scores) :
    (processFile cfg env st f).totalScore + scoresPointsSum st.scores
      = st.totalScore + scoresPointsSum (processFile cfg env st f).scores ∧
    ∀ x ∈ scoresKeys (processFile cfg env st f).scores,
      x ∈ scoresKeys st.scores ∨ x = f.path := by
  by_cases h1 : env.testFilterInclude f.path
  · refine ⟨by simp [processFile, h1], fun x hx => ?_⟩
    simp only [processFile, if_pos h1] at hx
    exact Or.inl hx
  · by_cases h2 : env.sourceFilterInclude f.path
    case neg =>
      refine ⟨by simp [processFile, h1, h2], fun x hx => ?_⟩
      simp [processFile, h1, h2] at hx
      exact Or.inl hx
    by_cases h3 : env.hasSupportedExtension f.path
    case neg =>
      refine ⟨by simp [processFile, h1, h2, h3], fun x hx => ?_⟩
      simp [processFile, h1, h2, h3] at hx
      exact Or.inl hx
    by_cases h4 : env.getOldCode f.path = "Skipped" ∨ env.getNewCode f.path = "Skipped"
    · refine ⟨by simp [processFile, h1, h2, h3, h4], fun x hx => ?_⟩
      simp [processFile, h1, h2, h3, h4] at hx
      exact Or.inl hx
    · by_cases h5 : jsTrim (env.getOldCode f.path) = "" ∨ jsTrim (env.getNewCode f.path) = ""
      · refine ⟨by simp [processFile, h1, h2, h3, h4, h5], fun x hx => ?_⟩
        simp [processFile, h1, h2, h3, h4, h5] at hx
        exact Or.inl hx
      · rcases hstatus with hM | hD
        · have hnotD : ¬ (f.status = ChangeStatus.D) := by simp [hM]
          have hnotAU : ¬ (f.status = ChangeStatus.A ∨ f.status = ChangeStatus.U) := by
            simp [hM]
          have hnotR : ¬ (f.status = ChangeStatus.R) := by simp [hM]
          simp only [processFile, if_neg h1, h2, h3, Bool.not_true, Bool.not_false,
            Bool.false_eq_true, if_false, if_true, if_neg h4, if_neg h5, if_neg hnotD,
            if_neg hnotAU]
          rcases hr : f.renamedFrom with _ | src <;>
            simp only [hr] <;>
            [skip; simp only [if_neg hnotR]] <;>
          · have hfs := analyzeFile_fileScore cfg env.asg
              (env.parse (env.getNewCode f.path)) (env.parse (env.getOldCode f.path))
            generalize hfa : analyzeFile cfg env.asg
              (env.parse (env.getNewCode f.path))
              (env.parse (env.getOldCode f.path)) = fa at hfs ⊢
            constructor
            · split_ifs <;>
                simp only [objSetRisks_fresh hfresh, scoresPointsSum_objAppendRisk,
                  scoresPointsSum_append, scoresPointsSum_singleton, hfs] <;>
                ring
            · split_ifs <;>
                (intro x hx
                 try dsimp only at hx
                 first
                   | exact Or.inl hx
                   | exact keys_case_set hx
                   | exact keys_case_append hx
                   | exact keys_case_append_set hx)
        · have hD' : f.status = ChangeStatus.D := hD
          simp only [processFile, if_neg h1, h2, h3, Bool.not_true, Bool.not_false,
            Bool.false_eq_true, if_false, if_true, if_neg h4, if_neg h5, if_pos hD']
          constructor
          · simp only [objSetRisks_fresh hfresh, scoresPointsSum_append,
              scoresPointsSum_singleton, riskPointsSum_singleton]
            ring
          · intro x hx
            try dsimp only at hx
            exact keys_case_set hx

/-- The whole-loop version of `processFile_points`. -/
theorem foldl_processFile_points (cfg : ResolvedConfig) (env : BCEnv) :
    ∀ (files : List FileChange) (st : BCState),
      (∀ f ∈ files, f.status = ChangeStatus.M ∨ f.status = ChangeStatus.D) →
      (files.map FileChange.path).Nodup →
      (∀ f ∈ files, f.path ∉ scoresKeys st.scores) →
      (files.foldl (processFile cfg env) st).totalScore + scoresPointsSum st.scores
        = st.totalScore + scoresPointsSum (files.foldl (processFile cfg env) st).scores ∧
      ∀ x ∈ scoresKeys (files.foldl (processFile cfg env) st).scores,
        x ∈ scoresKeys st.scores ∨ x ∈ files.map FileChange.path := by
  intro files
  induction files with
  | nil =>
    intro st _ _ _
    refine ⟨?_, fun x hx => Or.inl hx⟩
    simp only [List.foldl_nil]
  | cons f fs ih =>
    intro st hstatus hnodup hfresh
    have hstep := processFile_points cfg env st f
      (hstatus f (List.mem_cons_self f fs)) (hfresh f (List.mem_cons_self f fs))
    have hnodup' : (fs.map FileChange.path).Nodup := by
      simp only [List.map_cons, List.nodup_cons] at hnodup
      exact hnodup.2
    have hhead : f.path ∉ fs.map FileChange.path := by
      simp only [List.map_cons, List.nodup_cons] at hnodup
      exact hnodup.1
    have hfresh' : ∀ f' ∈ fs, f'.path ∉ scoresKeys (processFile cfg env st f).scores := by
      intro f' hf' hmem
      rcases hstep.2 f'.path hmem with hk | hk
      · exact hfresh f' (List.mem_cons_of_mem f hf') hk
      · exact hhead (hk ▸ List.mem_map_of_mem FileChange.path hf')
    have hih := ih (processFile cfg env st f)
      (fun f' hf' => hstatus f' (List.mem_cons_of_mem f hf')) hnodup' hfresh'
    rw [List.foldl_cons]
    constructor
    · have e1 := hstep.1
      have e2 := hih.1
      linarith
    · intro x hx
      rcases hih.2 x hx with hk | hk
      · rcases hstep.2 x hk with hk2 | hk2
        · exact Or.inl hk2
        · exact Or.inr (by simp [hk2])
      · exact Or.inr (by simp [hk])

/-- `analyzeBreakingChanges`' running `totalScore` equals the points it
records, provided every change is Modified or Deleted (the statuses whose
pre-check entries are never overwritten) and paths are distinct. -/
theorem analyzeBreakingChanges_total_eq_points (cfg : ResolvedConfig) (env : BCEnv)
    (files : List FileChange)
    (hstatus : ∀ f ∈ files, f.status = ChangeStatus.M ∨ f.status = ChangeStatus.D)
    (hnodup : (files.map FileChange.path).Nodup) :
    (analyzeBreakingChanges cfg env files).totalScore =
      scoresPointsSum (analyzeBreakingChanges cfg env files).scores := by
  have h := (foldl_processFile_points cfg env files
    { issues := [], scores := [], totalScore := 0,
      skipped := { unsupported := [], failed := [], empty := [], tests := [] } }
    hstatus hnodup (by intro f _ hx; cases hx)).1
  simpa [analyzeBreakingChanges, scoresPointsSum] using h

/-- The subsystem count the graph scorer reads for a changed file. -/
def subsystemCountOf (g : UsageGraph) (file : String) : Nat :=
  match lookupNode g file with
  | some n => n.subsystem.length
  | none => 0

theorem graphScoreStep_points (g : UsageGraph) (acc : ℚ × List ScoredRisk) (file : String)
    (hsub : subsystemCountOf g file ≤ 1) :
    (graphScoreStep g acc file).1 + riskPointsSum acc.2
      = acc.1 + riskPointsSum (graphScoreStep g acc file).2 := by
  have hnot : ¬ (subsystemCountOf g file > 1) := by omega
  simp only [graphScoreStep, subsystemCountOf] at hnot ⊢
  split_ifs <;>
    simp [riskPointsSum_append, riskPointsSum] <;>
    ring

/-- `calculateGraphScore`'s `totalScore` equals the points of the risks it
pushes, provided no changed file spans more than one subsystem (otherwise
the `UsedInMultipleTrees` risk is pushed without being summed). -/
theorem calculateGraphScore_total_eq_points (g : UsageGraph) (changedFiles : List String)
    (hsub : ∀ c ∈ changedFiles, subsystemCountOf g c ≤ 1) :
    (calculateGraphScore g changedFiles).1 =
      riskPointsSum (calculateGraphScore g changedFiles).2 := by
  have hfold : ∀ (l : List String) (acc : ℚ × List ScoredRisk),
      (∀ c ∈ l, subsystemCountOf g c ≤ 1) →
      (l.foldl (graphScoreStep g) acc).1 + riskPointsSum acc.2
        = acc.1 + riskPointsSum (l.foldl (graphScoreStep g) acc).2 := by
    intro l
    induction l with
    | nil =>
      intro acc _
      simp only [List.foldl_nil]
    | cons c cs ihl =>
      intro acc hl
      rw [List.foldl_cons]
      have e1 := graphScoreStep_points g acc c (hl c (List.mem_cons_self c cs))
      have e2 := ihl (graphScoreStep g acc c)
        (fun c' hc' => hl c' (List.mem_cons_of_mem c hc'))
      linarith
  have h := hfold changedFiles (0, []) hsub
  simpa [calculateGraphScore, riskPointsSum] using h

/-- Sum of the per-file `total`s the report computes. -/
def fileTotalsSum (l : List (String × ℚ × List ScoredRisk)) : ℚ :=
  (l.map fun e => e.2.1).sum

theorem addToFileRisks_total (acc : List (String × ℚ × List ScoredRisk))
    (e : String × ScoredRisk) :
    fileTotalsSum (addToFileRisks acc e) = fileTotalsSum acc + e.2.points := by
  induction acc with
  | nil => simp [addToFileRisks, fileTotalsSum]
  | cons hd tl ih =>
    obtain ⟨k, t, rs⟩ := hd
    by_cases hk : k = e.1
    · simp [addToFileRisks, hk, fileTotalsSum]
      ring
    · simp only [addToFileRisks, if_neg hk, fileTotalsSum, List.map_cons, List.sum_cons]
      simp only [fileTotalsSum] at ih
      rw [ih]
      ring

theorem foldl_addToFileRisks_total (l : List (String × ScoredRisk)) :
    ∀ acc, fileTotalsSum (l.foldl addToFileRisks acc)
      = fileTotalsSum acc + (l.map fun e => e.2.points).sum := by
  induction l with
  | nil => intro acc; simp
  | cons hd tl ih =>
    intro acc
    rw [List.foldl_cons, ih, addToFileRisks_total]
    simp only [List.map_cons, List.sum_cons]
    ring

/-- The report's per-file bucketing preserves the total: the sum over all
files of the bucketed `total` equals the sum of all recorded breaking-change
points plus all graph points. -/
theorem getFileRisks_totals (bcScores : List (String × List ScoredRisk))
    (graphRisks : List ScoredRisk) :
    fileTotalsSum (getFileRisks bcScores graphRisks)
      = scoresPointsSum bcScores + riskPointsSum graphRisks := by
  simp only [getFileRisks]
  rw [foldl_addToFileRisks_total]
  have hflat : ∀ (tl : List (String × List ScoredRisk)),
      ((tl.flatMap fun fr => fr.2.map fun s => (fr.1, s)).map fun e => e.2.points).sum
        = scoresPointsSum tl := by
    intro tl
    induction tl with
    | nil => simp [scoresPointsSum]
    | cons hd tl2 ihb =>
      obtain ⟨p, rs⟩ := hd
      simp only [List.flatMap_cons, List.map_append, List.sum_append, ihb]
      simp only [scoresPointsSum, List.map_cons, List.sum_cons]
      congr 1
      simp [riskPointsSum, List.map_map, Function.comp_def]
  have hgr : ((graphRisks.map fun s => (s.subject, s)).map fun e => e.2.points).sum
      = riskPointsSum graphRisks := by
    simp [riskPointsSum, List.map_map, Function.comp_def]
  rw [List.map_append, List.sum_append, hflat, hgr]
  simp [fileTotalsSum]

/-- Environment for the C1 counterexample and witness: the old version
exports `foo`, the new one does not; test coverage off. -/
def c1Env : BCEnv :=
  { getOldCode := fun _ => "old"
    getNewCode := fun _ => "new"
    includeTests := false
    testFilterInclude := fun _ => false
    sourceFilterInclude := fun _ => true
    hasSupportedExtension := fun _ => true
    parse := fun t => if t = "old" then [("foo", Decl.other)] else []
    asg := fun _ _ => true
    testTexts := [] }

/-- The single-file change list of the C1 run. -/
def c1Files : List FileChange := [{ path := "a.ts", status := ChangeStatus.M }]

/-- A concrete run: one modified file losing its `foo` export (10 points of
`ExportRemoved`), 6 of 10 lines changed (60% > 20%), no graph data. -/
def c1Run : RunData :=
  runPipeline defaultConfig c1Env c1Files [] [] [("a.ts", ⟨3, 3, 10⟩)]

/-- C1 counterexample: `totalRiskScore` is 10 (the recorded ExportRemoved
points) while the sum of the per-file presented scores including the derived
LargeChange contribution is 17 — the LargeChange points are folded only into
the presented per-file score, never into `totalRiskScore`. -/
theorem totalRiskScore_excludes_largeChange :
    c1Run.totalRiskScore = 10 ∧ sumPresentedFinalScores c1Run = 17 ∧
    c1Run.totalRiskScore ≠ sumPresentedFinalScores c1Run :=
  ⟨by with_unfolding_all decide, by with_unfolding_all decide,
   by with_unfolding_all decide⟩

/-- C1 (amended): `totalRiskScore` equals the sum over all files of the
recorded per-file points from the breaking-change and graph sources,
EXCLUDING the derived LargeChange contribution — provided every change is
Modified or Deleted with distinct paths (otherwise a pre-check risk entry is
overwritten while its points stay in the total) and no changed file spans
more than one subsystem (otherwise `UsedInMultipleTrees` points are recorded
but not summed). -/
theorem totalRiskScore_eq_recorded_sum (cfg : ResolvedConfig) (env : BCEnv)
    (files : List FileChange) (g : UsageGraph) (changedFiles : List String)
    (lineStats : List (String × LineStats))
    (hstatus : ∀ f ∈ files, f.status = ChangeStatus.M ∨ f.status = ChangeStatus.D)
    (hnodup : (files.map FileChange.path).Nodup)
    (hsub : ∀ c ∈ changedFiles, subsystemCountOf g c ≤ 1) :
    (runPipeline cfg env files g changedFiles lineStats).totalRiskScore =
      fileTotalsSum (getFileRisks
        (runPipeline cfg env files g changedFiles lineStats).breaking.scores
        (runPipeline cfg env files g changedFiles lineStats).graphRisks) := by
  simp only [runPipeline]
  rw [getFileRisks_totals,
    analyzeBreakingChanges_total_eq_points cfg env files hstatus hnodup,
    calculateGraphScore_total_eq_points g changedFiles hsub]

/-- C1 witness: the amended theorem instantiated on the concrete run with a
Modified file and an empty graph. -/
theorem totalRiskScore_eq_recorded_sum_witness :
    ((∀ f ∈ c1Files, f.status = ChangeStatus.M ∨ f.status = ChangeStatus.D) ∧
     (c1Files.map FileChange.path).Nodup ∧
     (∀ c ∈ (["b.ts"] : List String), subsystemCountOf [] c ≤ 1)) ∧
    (runPipeline defaultConfig c1Env c1Files [] ["b.ts"]
        [("a.ts", ⟨3, 3, 10⟩)]).totalRiskScore =
      fileTotalsSum (getFileRisks
        (runPipeline defaultConfig c1Env c1Files [] ["b.ts"]
          [("a.ts", ⟨3, 3, 10⟩)]).breaking.scores
        (runPipeline defaultConfig c1Env c1Files [] ["b.ts"]
          [("a.ts", ⟨3, 3, 10⟩)]).graphRisks) :=
  ⟨⟨by decide, by decide, by decide⟩,
   totalRiskScore_eq_recorded_sum defaultConfig c1Env c1Files [] ["b.ts"]
     [("a.ts", ⟨3, 3, 10⟩)] (by decide) (by decide) (by decide)⟩

end Diffuse
